import Mathlib

/-!
# KDTree: a 2-dimensional point index

A shallow embedding of `src/kdtree.cpp`.

* Coordinates (`double` in the source) are exact rationals; `EPSILON` is `2^-52`.
  `NaN`, which the source uses only as the "not yet known" mark of a bound, is `none`.
  `compareDoubles` subtracts exactly, where the source rounds `value1 - value2` to a
  double before it compares it with `EPSILON`.  Rounding is monotone and keeps
  `EPSILON` and `2 * EPSILON`, so the two agree on coordinates within `EPSILON` of each
  other or at least `2 * EPSILON` apart (`compareDoublesRounded_eq`); statements that
  depend on the exact place of the tolerance take such a margin as a hypothesis
  (`StrictWeakOnAxis`, `MinSeparated`, `MaxSeparated`).
* A node of the source is a record with a `dimension` tag (`-2` empty root, `-1` leaf,
  `>= 0` internal), a nullable `point` and nullable children.  The three tags are the
  three constructors of `KDTree`; the point of a leaf stays nullable, because `remove`
  can leave a leaf whose `point` is null.
* The `parent` pointer is read in two places only: `insert` and `buildKDtree` read
  `parent->dimension`, which is passed down as an argument, and `remove` rewrites the
  parent of the leaf it deletes, which is done by the call that descends into that leaf.
* Reading through a null pointer, `vector::at` out of range, a call of
  `std::nth_element` on an invalid range and signed overflow of `begin + end` in a
  32-bit `int` are faults (`Except Fault`).  The conversion of `points.size() - 1` to
  `int` wraps modulo `2^32` (`toInt`).
* `std::nth_element` is a parameter.  Every call rearranges its range only
  (`NthElementPerm`); it orders the range around `nth` where its precondition holds,
  namely where the comparator is a strict weak ordering on the range (`NthElementOrders`).
-/

/-- Machine epsilon of `double`, `std::numeric_limits<double>::epsilon()` -/
def EPSILON : ℚ := 1 / 2 ^ 52

/-- Tolerant three-way comparison (source lines 12-19), with the difference taken
exactly -/
def compareDoubles (value1 value2 : ℚ) : Int :=
  if value1 - value2 < -EPSILON then -1
  else if value1 - value2 > EPSILON then 1
  else 0

/-- The comparison of source lines 12-19 with the rounding of `value1 - value2` to a
`double` made explicit, as a parameter -/
def compareDoublesRounded (round : ℚ → ℚ) (value1 value2 : ℚ) : Int :=
  if round (value1 - value2) < -EPSILON then -1
  else if round (value1 - value2) > EPSILON then 1
  else 0

/-- A point of the plane -/
structure Point2D where
  x : ℚ
  y : ℚ
deriving DecidableEq

namespace Point2D

/-- Coordinate on an axis: `dimension ? y : x` -/
def get (p : Point2D) (dimension : Nat) : ℚ :=
  if dimension ≠ 0 then p.y else p.x

/-- Tolerant comparison of two points on one axis -/
def compareDimension (p point : Point2D) (dimension : Nat) : Int :=
  compareDoubles (p.get dimension) (point.get dimension)

/-- Tolerant equality of two points: both axes compare equal -/
def equals (p point : Point2D) : Bool :=
  decide (p.compareDimension point 0 = 0) && decide (p.compareDimension point 1 = 0)

/-- Inclusive containment of `p` in the rectangle spanned by two corners -/
def inside (p lowerLeft upperRight : Point2D) : Bool :=
  decide (p.compareDimension lowerLeft 0 > -1) && decide (p.compareDimension upperRight 0 < 1) &&
    decide (p.compareDimension lowerLeft 1 > -1) && decide (p.compareDimension upperRight 1 < 1)

end Point2D

/-- What stops an operation of the source short of a result -/
inductive Fault where
  | nullPointer
  | outOfRange
  | invalidRange
  | overflow
  | outOfFuel
deriving DecidableEq

/-- A tree node: `empty` is `dimension == -2`, `leaf` is `dimension == -1` with its
(nullable) `point`, `node` is `dimension >= 0` with `median`, `left` and `right` -/
inductive KDTree where
  | empty : KDTree
  | leaf (point : Option Point2D) : KDTree
  | node (dimension : Nat) (median : ℚ) (left right : KDTree) : KDTree
deriving DecidableEq

namespace KDTree

/-- The `point` field of a node: null unless the node is a leaf that holds one -/
def point : KDTree → Option Point2D
  | leaf pt => pt
  | _ => none

/-- Axis of a node created under a parent: `parent ? (parent->dimension + 1) % 2 : 0` -/
def childDimension (parent : Option Nat) : Nat :=
  match parent with
  | some parentDimension => (parentDimension + 1) % 2
  | none => 0

/-- Insertion (source lines 77-100); `parent` is the dimension of the parent node,
`none` at the root -/
def insert : KDTree → Point2D → Option Nat → Except Fault KDTree
  | empty, newPoint, _ => .ok (leaf (some newPoint))
  | leaf none, _, _ => .error .nullPointer
  | leaf (some point), newPoint, parent =>
    let dimension := childDimension parent
    let median := min (newPoint.get dimension) (point.get dimension)
    if point.compareDimension newPoint dimension < 0 then
      .ok (node dimension median (leaf (some point)) (leaf (some newPoint)))
    else
      .ok (node dimension median (leaf (some newPoint)) (leaf (some point)))
  | node dimension median left right, newPoint, _ =>
    if compareDoubles (newPoint.get dimension) median < 1 then
      match left.insert newPoint (some dimension) with
      | .ok left1 => .ok (node dimension median left1 right)
      | .error e => .error e
    else
      match right.insert newPoint (some dimension) with
      | .ok right1 => .ok (node dimension median left right1)
      | .error e => .error e

/-- Whether a node is a leaf: `dimension == -1` -/
def isLeaf : KDTree → Bool
  | leaf _ => true
  | _ => false

/-- Removal (source lines 103-130), called on the root.  A leaf that holds the target
and has a parent turns the parent into a leaf holding `sibling->point` (lines 110-116);
the call on the parent does that rewrite when the child it descends into is a leaf. -/
def remove : KDTree → Point2D → Except Fault KDTree
  | empty, _ => .ok empty
  | leaf none, _ => .error .nullPointer
  | leaf (some point), oldPoint =>
    if point.equals oldPoint then .ok empty else .ok (leaf (some point))
  | node dimension median left right, oldPoint =>
    if compareDoubles (oldPoint.get dimension) median < 1 then
      if left.isLeaf then
        match left.point with
        | none => .error .nullPointer
        | some point =>
          if point.equals oldPoint then .ok (leaf right.point)
          else .ok (node dimension median left right)
      else
        match left.remove oldPoint with
        | .ok left1 => .ok (node dimension median left1 right)
        | .error e => .error e
    else
      if right.isLeaf then
        match right.point with
        | none => .error .nullPointer
        | some point =>
          if point.equals oldPoint then .ok (leaf left.point)
          else .ok (node dimension median left right)
      else
        match right.remove oldPoint with
        | .ok right1 => .ok (node dimension median left right1)
        | .error e => .error e

/-- Exact search (source lines 133-142): the stored point found, or `none` -/
def search : KDTree → Point2D → Except Fault (Option Point2D)
  | empty, _ => .ok none
  | leaf none, _ => .error .nullPointer
  | leaf (some point), targetPoint =>
    if point.equals targetPoint then .ok (some point) else .ok none
  | node dimension median left right, targetPoint =>
    if compareDoubles (targetPoint.get dimension) median < 1 then left.search targetPoint
    else right.search targetPoint

/-- Point with the smallest coordinate on `targetDimension` (source lines 145-156);
`none` is the null pointer the source returns from a node without a point -/
def findMin : KDTree → Nat → Except Fault (Option Point2D)
  | empty, _ => .ok none
  | leaf pt, _ => .ok pt
  | node dimension _ left right, targetDimension =>
    if dimension = targetDimension then left.findMin targetDimension
    else
      match left.findMin targetDimension, right.findMin targetDimension with
      | .ok (some leftMin), .ok (some rightMin) =>
        .ok (some (if leftMin.compareDimension rightMin targetDimension < 1 then leftMin
          else rightMin))
      | .ok _, .ok _ => .error .nullPointer
      | .error e, _ => .error e
      | .ok _, .error e => .error e

/-- Point with the largest coordinate on `targetDimension` (source lines 159-170) -/
def findMax : KDTree → Nat → Except Fault (Option Point2D)
  | empty, _ => .ok none
  | leaf pt, _ => .ok pt
  | node dimension _ left right, targetDimension =>
    if dimension = targetDimension then right.findMax targetDimension
    else
      match left.findMax targetDimension, right.findMax targetDimension with
      | .ok (some leftMax), .ok (some rightMax) =>
        .ok (some (if leftMax.compareDimension rightMax targetDimension < 1 then rightMax
          else leftMax))
      | .ok _, .ok _ => .error .nullPointer
      | .error e, _ => .error e
      | .ok _, .error e => .error e

/-- Output of one call followed by the output of the next -/
def thenOutput (first second : Except Fault (List Point2D)) : Except Fault (List Point2D) :=
  match first with
  | .ok out1 =>
    match second with
    | .ok out2 => .ok (out1 ++ out2)
    | .error e => .error e
  | .error e => .error e

/-- Left-to-right listing of the stored points (source lines 173-179): the lines the
source prints, in order -/
def displayPoints : KDTree → Except Fault (List Point2D)
  | empty => .ok []
  | leaf none => .error .nullPointer
  | leaf (some point) => .ok [point]
  | node _ _ left right => thenOutput left.displayPoints right.displayPoints

/-- The test of source lines 199-202: all four bounds are known and both corners of
the bounding rectangle lie inside the query rectangle -/
def subsumed (lowerLeft upperRight : Point2D)
    (leftBound rightBound lowerBound upperBound : Option ℚ) : Bool :=
  match leftBound, rightBound, lowerBound, upperBound with
  | some lb, some rb, some lob, some ub =>
    (Point2D.mk lb lob).inside lowerLeft upperRight && (Point2D.mk rb ub).inside lowerLeft upperRight
  | _, _, _, _ => false

/-- Range query (source lines 196-224): the points it prints, in order.  A bound is
`none` while it is `NaN` in the source. -/
def printRange : KDTree → Point2D → Point2D → Option ℚ → Option ℚ → Option ℚ → Option ℚ →
    Except Fault (List Point2D)
  | empty, lowerLeft, upperRight, leftBound, rightBound, lowerBound, upperBound =>
    if subsumed lowerLeft upperRight leftBound rightBound lowerBound upperBound then
      empty.displayPoints
    else .ok []
  | leaf pt, lowerLeft, upperRight, leftBound, rightBound, lowerBound, upperBound =>
    if subsumed lowerLeft upperRight leftBound rightBound lowerBound upperBound then
      (leaf pt).displayPoints
    else
      match pt with
      | none => .error .nullPointer
      | some point => if point.inside lowerLeft upperRight then .ok [point] else .ok []
  | node dimension median left right, lowerLeft, upperRight, leftBound, rightBound,
      lowerBound, upperBound =>
    if subsumed lowerLeft upperRight leftBound rightBound lowerBound upperBound then
      (node dimension median left right).displayPoints
    else if dimension = 0 then
      thenOutput
        (if compareDoubles lowerLeft.x median < 1 then
          left.printRange lowerLeft upperRight leftBound (some median) lowerBound upperBound
         else .ok [])
        (if compareDoubles upperRight.x median > 0 then
          right.printRange lowerLeft upperRight (some median) rightBound lowerBound upperBound
         else .ok [])
    else if dimension = 1 then
      thenOutput
        (if compareDoubles lowerLeft.y median < 1 then
          left.printRange lowerLeft upperRight leftBound rightBound lowerBound (some median)
         else .ok [])
        (if compareDoubles upperRight.y median > 0 then
          right.printRange lowerLeft upperRight leftBound rightBound (some median) upperBound
         else .ok [])
    else .ok []

/-- The points held by the leaves, left to right (a leaf with a null point holds none) -/
def storedPoints : KDTree → List Point2D
  | empty => []
  | leaf none => []
  | leaf (some point) => [point]
  | node _ _ left right => left.storedPoints ++ right.storedPoints

/-- A subtree in which every leaf holds a point and every internal node has two such
subtrees as children -/
def Proper : KDTree → Prop
  | empty => False
  | leaf none => False
  | leaf (some _) => True
  | node _ _ left right => left.Proper ∧ right.Proper

/-- Deciding `Proper` -/
def decProper : (t : KDTree) → Decidable t.Proper
  | empty => isFalse (fun h => h)
  | leaf none => isFalse (fun h => h)
  | leaf (some _) => isTrue trivial
  | node _ _ left right =>
    match decProper left, decProper right with
    | isTrue hl, isTrue hr => isTrue ⟨hl, hr⟩
    | isFalse hl, _ => isFalse (fun h => hl h.1)
    | _, isFalse hr => isFalse (fun h => hr h.2)

instance (t : KDTree) : Decidable t.Proper := decProper t

/-- Weak partition: at every internal node the points on the left compare at most the
threshold on the node's axis, the points on the right compare at least the threshold,
and the threshold is the coordinate of a point stored below the node -/
def WeaklyPartitioned : KDTree → Prop
  | node dimension median left right =>
    (∀ p ∈ left.storedPoints, compareDoubles (p.get dimension) median < 1) ∧
    (∀ q ∈ right.storedPoints, compareDoubles (q.get dimension) median > -1) ∧
    (∃ s ∈ left.storedPoints ++ right.storedPoints, s.get dimension = median) ∧
    left.WeaklyPartitioned ∧ right.WeaklyPartitioned
  | _ => True

/-- Deciding `WeaklyPartitioned` -/
def decWeaklyPartitioned : (t : KDTree) → Decidable t.WeaklyPartitioned
  | empty => isTrue trivial
  | leaf _ => isTrue trivial
  | node dimension median left right =>
    let _ := decWeaklyPartitioned left
    let _ := decWeaklyPartitioned right
    inferInstanceAs (Decidable (
      (∀ p ∈ left.storedPoints, compareDoubles (p.get dimension) median < 1) ∧
      (∀ q ∈ right.storedPoints, compareDoubles (q.get dimension) median > -1) ∧
      (∃ s ∈ left.storedPoints ++ right.storedPoints, s.get dimension = median) ∧
      left.WeaklyPartitioned ∧ right.WeaklyPartitioned))

instance (t : KDTree) : Decidable t.WeaklyPartitioned := decWeaklyPartitioned t

/-- The node that `remove` calls `sibling` (source line 110) when it descends for
`oldPoint` and reaches a leaf that has a parent; `none` when the leaf reached is the
root or an empty node is reached -/
def sibling : KDTree → Point2D → Option KDTree
  | node dimension median left right, oldPoint =>
    if compareDoubles (oldPoint.get dimension) median < 1 then
      if left.isLeaf then some right else left.sibling oldPoint
    else
      if right.isLeaf then some left else right.sibling oldPoint
  | _, _ => none

/-- The tree after inserting the points of a list, in order, at the root -/
def insertAll : KDTree → List Point2D → Except Fault KDTree
  | t, [] => .ok t
  | t, p :: ps =>
    match t.insert p none with
    | .ok t1 => insertAll t1 ps
    | .error e => .error e

end KDTree

/-- Model of `std::nth_element` with the comparator of source lines 236-238: given the
axis, `first`, `nth`, `last` (offsets from `points.begin()`) and the vector, the
rearranged vector -/
abbrev NthElement := Nat → Nat → Nat → Nat → List Point2D → List Point2D

/-- The comparator handed to `std::nth_element`: tolerant "less on the axis" -/
def lessOnAxis (dimension : Nat) (point1 point2 : Point2D) : Bool :=
  decide (point1.compareDimension point2 dimension < 0)

/-- What every call of `std::nth_element` does, whatever the comparator: only the range
`[first, last)` is rearranged -/
def NthElementPerm (nthElement : NthElement) : Prop :=
  ∀ (dimension first nth last : Nat) (points : List Point2D),
    first ≤ nth → nth ≤ last → last ≤ points.length →
    ∃ range : List Point2D,
      nthElement dimension first nth last points
        = points.take first ++ range ++ points.drop last ∧
      range.Perm ((points.drop first).take (last - first))

/-- The comparator `lessOnAxis` is a strict weak ordering of the points, by a margin
that the rounding of the difference in the source cannot cross: two coordinates on the
axis are within `EPSILON` of each other (the points compare equivalent) or at least
`2 * EPSILON` apart (one point compares less), and equivalence is transitive.  This is
the precondition of `std::nth_element` on a range of these points, in the model and in
the source alike. -/
def StrictWeakOnAxis (axis : Nat) (points : List Point2D) : Prop :=
  (∀ p ∈ points, ∀ q ∈ points,
    |p.get axis - q.get axis| ≤ EPSILON ∨ 2 * EPSILON ≤ |p.get axis - q.get axis|) ∧
  (∀ p ∈ points, ∀ q ∈ points, ∀ r ∈ points,
    |p.get axis - q.get axis| ≤ EPSILON → |q.get axis - r.get axis| ≤ EPSILON →
      |p.get axis - r.get axis| ≤ EPSILON)

instance (axis : Nat) (points : List Point2D) : Decidable (StrictWeakOnAxis axis points) :=
  inferInstanceAs (Decidable (
    (∀ p ∈ points, ∀ q ∈ points,
      |p.get axis - q.get axis| ≤ EPSILON ∨ 2 * EPSILON ≤ |p.get axis - q.get axis|) ∧
    (∀ p ∈ points, ∀ q ∈ points, ∀ r ∈ points,
      |p.get axis - q.get axis| ≤ EPSILON → |q.get axis - r.get axis| ≤ EPSILON →
        |p.get axis - r.get axis| ≤ EPSILON)))

/-- Ordering guarantee of `std::nth_element` where its precondition holds, that is on a
range that the comparator orders strictly and weakly: the element left at `nth` is the
element that would be in that position if the whole range were sorted, and no element
of `[nth, last)` is less than an element of `[first, nth)` -/
def NthElementOrders (nthElement : NthElement) : Prop :=
  ∀ (dimension first nth last : Nat) (points : List Point2D),
    first ≤ nth → nth ≤ last → last ≤ points.length →
    StrictWeakOnAxis dimension
      (((nthElement dimension first nth last points).drop first).take (last - first)) →
    (∃ sorted : List Point2D,
      sorted.Perm
        (((nthElement dimension first nth last points).drop first).take (last - first)) ∧
      sorted.Pairwise (fun a b => lessOnAxis dimension b a = false) ∧
      sorted[nth - first]?
        = (((nthElement dimension first nth last points).drop first).take
            (last - first))[nth - first]?) ∧
    ∀ p ∈ (((nthElement dimension first nth last points).drop first).take
        (last - first)).take (nth - first),
      ∀ q ∈ (((nthElement dimension first nth last points).drop first).take
          (last - first)).drop (nth - first),
        lessOnAxis dimension q p = false

/-- Postcondition of `std::nth_element` for the comparator `lessOnAxis`: the range is
rearranged only, and it is ordered around `nth` where the precondition holds -/
def NthElementPost (nthElement : NthElement) : Prop :=
  NthElementPerm nthElement ∧ NthElementOrders nthElement

/-- Largest value of the source's `int` (32 bits) -/
def INT_MAX : Int := 2 ^ 31 - 1

/-- Smallest value of the source's `int` (32 bits) -/
def INT_MIN : Int := -(2 ^ 31)

/-- Conversion of an integer value to the source's `int`: the value modulo `2^32`
that lies between `INT_MIN` and `INT_MAX` -/
def toInt (value : Int) : Int :=
  (value - INT_MIN) % 2 ^ 32 + INT_MIN

/-- Checked element access `points.at(index)` -/
def vectorAt (points : List Point2D) (index : Int) : Except Fault Point2D :=
  if 0 ≤ index then
    match points[index.toNat]? with
    | some p => .ok p
    | none => .error .outOfRange
  else .error .outOfRange

/-- Bulk construction (source lines 228-247) over the shared vector `points`: the
subtree for the index range `[begin, end]` and the vector as the call leaves it.
`parent` is the dimension of the parent node, `none` at the root.  The sum
`begin + end` of line 230 is an `int`: outside the 32-bit range it is a fault.  The
recursion is bounded by `fuel`. -/
def buildKDtree (nthElement : NthElement) :
    Nat → List Point2D → Int → Int → Option Nat → Except Fault (KDTree × List Point2D)
  | 0, _, _, _, _ => .error .outOfFuel
  | fuel + 1, points, beginIdx, endIdx, parent =>
    if beginIdx ≠ endIdx then
      if beginIdx + endIdx < INT_MIN ∨ INT_MAX < beginIdx + endIdx then .error .overflow
      else
        let middle := (beginIdx + endIdx).tdiv 2
        let dimension := KDTree.childDimension parent
        if 0 ≤ beginIdx ∧ beginIdx ≤ middle ∧ middle ≤ endIdx + 1 ∧
            endIdx + 1 ≤ (points.length : Int) then
          let points1 :=
            nthElement dimension beginIdx.toNat middle.toNat (endIdx + 1).toNat points
          match vectorAt points1 middle with
          | .error e => .error e
          | .ok pivot =>
            let median := pivot.get dimension
            match buildKDtree nthElement fuel points1 beginIdx middle (some dimension) with
            | .error e => .error e
            | .ok (left, points2) =>
              match buildKDtree nthElement fuel points2 (middle + 1) endIdx
                  (some dimension) with
              | .error e => .error e
              | .ok (right, points3) =>
                .ok (KDTree.node dimension median left right, points3)
        else .error .invalidRange
    else
      match vectorAt points beginIdx with
      | .error e => .error e
      | .ok p => .ok (KDTree.leaf (some p), points)

/-- The call the loader makes (source line 264) on the points it has read:
`buildKDtree(points, 0, points.size() - 1)`, where `points.size() - 1` is converted
to `int` -/
def build (nthElement : NthElement) (fuel : Nat) (points : List Point2D) :
    Except Fault (KDTree × List Point2D) :=
  buildKDtree nthElement fuel points 0 (toInt ((points.length : Int) - 1)) none

/-- Trees reached from the Empty tree by a sequence of inserts -/
def InsertGrown (t : KDTree) : Prop :=
  ∃ points : List Point2D, KDTree.insertAll KDTree.empty points = .ok t

/-- Trees returned by the loader's build call (with an `nth_element` that, as every
one does, rearranges its range only) -/
def Built (t : KDTree) : Prop :=
  ∃ (nthElement : NthElement) (fuel : Nat) (points final : List Point2D),
    NthElementPerm nthElement ∧ build nthElement fuel points = .ok (t, final)

/-- Trees returned by the loader's build call with an `nth_element` that meets its
postcondition -/
def BuiltOrdered (t : KDTree) : Prop :=
  ∃ (nthElement : NthElement) (fuel : Nat) (points final : List Point2D),
    NthElementPost nthElement ∧ build nthElement fuel points = .ok (t, final)

/-- The minimum on the axis is separated: every coordinate of the list equals the
smallest one or exceeds it by at least `2 * EPSILON` -/
def MinSeparated (axis : Nat) (points : List Point2D) : Prop :=
  ∀ p ∈ points, (∀ q ∈ points, p.get axis ≤ q.get axis) →
    ∀ q ∈ points, q.get axis = p.get axis ∨ p.get axis + 2 * EPSILON ≤ q.get axis

instance (axis : Nat) (points : List Point2D) : Decidable (MinSeparated axis points) :=
  inferInstanceAs (Decidable (∀ p ∈ points, (∀ q ∈ points, p.get axis ≤ q.get axis) →
    ∀ q ∈ points, q.get axis = p.get axis ∨ p.get axis + 2 * EPSILON ≤ q.get axis))

/-- The maximum on the axis is separated: every coordinate of the list equals the
largest one or is at least `2 * EPSILON` below it -/
def MaxSeparated (axis : Nat) (points : List Point2D) : Prop :=
  ∀ p ∈ points, (∀ q ∈ points, q.get axis ≤ p.get axis) →
    ∀ q ∈ points, q.get axis = p.get axis ∨ q.get axis + 2 * EPSILON ≤ p.get axis

instance (axis : Nat) (points : List Point2D) : Decidable (MaxSeparated axis points) :=
  inferInstanceAs (Decidable (∀ p ∈ points, (∀ q ∈ points, q.get axis ≤ p.get axis) →
    ∀ q ∈ points, q.get axis = p.get axis ∨ q.get axis + 2 * EPSILON ≤ p.get axis))

/-- Weak partition on one axis: the condition of `WeaklyPartitioned` at the internal
nodes that split on that axis -/
def KDTree.PartitionedOn : KDTree → Nat → Prop
  | .node dimension median left right, axis =>
    (dimension = axis →
      (∀ p ∈ left.storedPoints, compareDoubles (p.get dimension) median < 1) ∧
      (∀ q ∈ right.storedPoints, compareDoubles (q.get dimension) median > -1) ∧
      (∃ s ∈ left.storedPoints ++ right.storedPoints, s.get dimension = median)) ∧
    left.PartitionedOn axis ∧ right.PartitionedOn axis
  | _, _ => True

/-- An `nth_element` that sorts the whole range by the exact coordinate on the axis -/
def sortRange : NthElement :=
  fun dimension first _ last points =>
    points.take first
      ++ ((points.drop first).take (last - first)).insertionSort
          (fun a b => a.get dimension ≤ b.get dimension)
      ++ points.drop last

instance leOnAxis_total (d : Nat) : IsTotal Point2D (fun a b => a.get d ≤ b.get d) :=
  ⟨fun _ _ => le_total _ _⟩

instance leOnAxis_trans (d : Nat) : IsTrans Point2D (fun a b => a.get d ≤ b.get d) :=
  ⟨fun _ _ _ h1 h2 => le_trans h1 h2⟩

/-- Median split: every internal node that holds `k` points below it has
`ceil(k/2)` of them in its left subtree and `floor(k/2)` in its right subtree -/
def KDTree.MedianSplit : KDTree → Prop
  | .node _ _ left right =>
    left.storedPoints.length
        = (left.storedPoints.length + right.storedPoints.length + 1) / 2 ∧
      right.storedPoints.length
        = (left.storedPoints.length + right.storedPoints.length) / 2 ∧
      left.MedianSplit ∧ right.MedianSplit
  | _ => True

/-- Axis alternation relative to the parent: every internal node has the axis
`parent ? (parent->dimension + 1) % 2 : 0`, where `parent` is the axis of its parent
node (`none` for the root) -/
def KDTree.AxisAlternates : KDTree → Option Nat → Prop
  | .node dimension _ left right, parent =>
    dimension = KDTree.childDimension parent ∧
      left.AxisAlternates (some dimension) ∧ right.AxisAlternates (some dimension)
  | _, _ => True

/-- Axis alternation by depth: every internal node at depth `k` below a node of depth
`depth` has axis `k mod 2` -/
def KDTree.AxisAtDepth : KDTree → Nat → Prop
  | .node dimension _ left right, depth =>
    dimension = depth % 2 ∧ left.AxisAtDepth (depth + 1) ∧ right.AxisAtDepth (depth + 1)
  | _, _ => True

/-- A mutating call on the root: `tree->insert(point)` or `tree->remove(point)` -/
inductive Command where
  | insert (point : Point2D)
  | remove (point : Point2D)
deriving DecidableEq

/-- Effect of one call on the root -/
def KDTree.execute : KDTree → Command → Except Fault KDTree
  | t, .insert point => t.insert point none
  | t, .remove point => t.remove point

/-- Effect of a sequence of calls on the root, in order -/
def KDTree.run : KDTree → List Command → Except Fault KDTree
  | t, [] => .ok t
  | t, c :: cs =>
    match t.execute c with
    | .ok t1 => t1.run cs
    | .error e => .error e

/-- Trees reached from the Empty tree or from a tree returned by build by a sequence of
insert and remove calls -/
def Reachable (t : KDTree) : Prop :=
  ∃ (start : KDTree) (calls : List Command),
    (start = KDTree.empty ∨ Built start) ∧ start.run calls = .ok t

theorem EPSILON_pos : 0 < EPSILON := by
  unfold EPSILON
  positivity

theorem compareDoubles_lt_one {a b : ℚ} : compareDoubles a b < 1 ↔ a - b ≤ EPSILON := by
  have h := EPSILON_pos
  unfold compareDoubles
  split_ifs with h1 h2
  · simp; linarith
  · simp; linarith
  · simp; linarith

theorem compareDoubles_lt_zero {a b : ℚ} : compareDoubles a b < 0 ↔ a - b < -EPSILON := by
  have h := EPSILON_pos
  unfold compareDoubles
  split_ifs with h1 h2
  · simp; linarith
  · simp; linarith
  · simp; linarith

theorem compareDoubles_eq_zero {a b : ℚ} :
    compareDoubles a b = 0 ↔ -EPSILON ≤ a - b ∧ a - b ≤ EPSILON := by
  have h := EPSILON_pos
  unfold compareDoubles
  split_ifs with h1 h2
  · simp; intro; linarith
  · simp; intro; linarith
  · simp; constructor <;> linarith

theorem compareDoubles_gt_neg_one {a b : ℚ} :
    compareDoubles a b > -1 ↔ -EPSILON ≤ a - b := by
  have h := EPSILON_pos
  unfold compareDoubles
  split_ifs with h1 h2
  · simp; linarith
  · simp; linarith
  · simp; linarith

/-- With a rounding that is monotone and keeps `EPSILON`, `2 * EPSILON` and their
negatives (all four are doubles), the rounded comparison and the exact one agree on
values within `EPSILON` of each other or at least `2 * EPSILON` apart -/
theorem compareDoublesRounded_eq (round : ℚ → ℚ)
    (hmono : ∀ a b, a ≤ b → round a ≤ round b)
    (h1 : round EPSILON = EPSILON) (h2 : round (2 * EPSILON) = 2 * EPSILON)
    (h3 : round (-EPSILON) = -EPSILON) (h4 : round (-(2 * EPSILON)) = -(2 * EPSILON))
    (value1 value2 : ℚ)
    (h : |value1 - value2| ≤ EPSILON ∨ 2 * EPSILON ≤ |value1 - value2|) :
    compareDoublesRounded round value1 value2 = compareDoubles value1 value2 := by
  have hε := EPSILON_pos
  unfold compareDoublesRounded compareDoubles
  rcases h with h | h
  · rw [abs_le] at h
    have ha := hmono _ _ h.1
    have hb := hmono _ _ h.2
    rw [h3] at ha
    rw [h1] at hb
    rw [if_neg (by linarith), if_neg (by linarith), if_neg (by linarith), if_neg (by linarith)]
  · rcases le_abs.mp h with h | h
    · have ha := hmono _ _ h
      rw [h2] at ha
      rw [if_neg (by linarith), if_pos (by linarith), if_neg (by linarith), if_pos (by linarith)]
    · have ha := hmono _ _ (show value1 - value2 ≤ -(2 * EPSILON) by linarith)
      rw [h4] at ha
      rw [if_pos (by linarith), if_pos (by linarith)]

theorem compareDoubles_self (a : ℚ) : compareDoubles a a = 0 := by
  rw [compareDoubles_eq_zero]
  have h := EPSILON_pos
  constructor <;> linarith

theorem Point2D.equals_self (p : Point2D) : p.equals p = true := by
  simp [Point2D.equals, Point2D.compareDimension, compareDoubles_self]

theorem sorted_take_drop {α : Type} (r : α → α → Prop) (hr : ∀ a, r a a) :
    ∀ (l : List α), l.Sorted r → ∀ k, ∀ x ∈ l.take (k + 1), ∀ y ∈ l.drop k, r x y := by
  intro l
  induction l with
  | nil => intro _ k x hx; simp at hx
  | cons a t ih =>
    intro hs k x hx y hy
    have hs' := List.sorted_cons.mp hs
    cases k with
    | zero =>
      simp at hx hy
      subst hx
      rcases hy with rfl | hy
      · exact hr _
      · exact hs'.1 y hy
    | succ k =>
      simp only [List.take_succ_cons, List.mem_cons, List.drop_succ_cons] at hx hy
      rcases hx with rfl | hx
      · exact hs'.1 y (List.mem_of_mem_drop hy)
      · exact ih hs'.2 k x hx y hy

theorem sortRange_perm : NthElementPerm sortRange := by
  intro d first nth last points _ _ _
  exact ⟨_, rfl, List.perm_insertionSort _ _⟩

theorem range_of_frame (front range back : List Point2D) (first last : Nat)
    (hfirst : front.length = first) (hlast : range.length = last - first) :
    ((front ++ range ++ back).drop first).take (last - first) = range := by
  subst hfirst
  rw [List.append_assoc, List.drop_left, ← hlast, List.take_left]

theorem lessOnAxis_iff (d : Nat) (a b : Point2D) :
    lessOnAxis d a b = true ↔ a.get d - b.get d < -EPSILON := by
  simp [lessOnAxis, Point2D.compareDimension, compareDoubles_lt_zero]

theorem lessOnAxis_irrefl (d : Nat) (a : Point2D) : lessOnAxis d a a = false := by
  have hε := EPSILON_pos
  rw [← Bool.not_eq_true, lessOnAxis_iff]
  linarith

theorem sortRange_post : NthElementPost sortRange := by
  refine ⟨sortRange_perm, ?_⟩
  intro d first nth last points hfn hnl hlast _
  have hrange : ((sortRange d first nth last points).drop first).take (last - first)
      = ((points.drop first).take (last - first)).insertionSort
          (fun a b => a.get d ≤ b.get d) := by
    apply range_of_frame
    · rw [List.length_take]; omega
    · rw [(List.perm_insertionSort _ _).length_eq, List.length_take, List.length_drop]
      omega
  rw [hrange]
  have hε := EPSILON_pos
  have hsorted := List.sorted_insertionSort (fun a b : Point2D => a.get d ≤ b.get d)
    ((points.drop first).take (last - first))
  have hweak : ∀ a b : Point2D, a.get d ≤ b.get d → lessOnAxis d b a = false := by
    intro a b hab
    rw [← Bool.not_eq_true, lessOnAxis_iff]
    linarith
  refine ⟨⟨_, List.Perm.refl _, List.Pairwise.imp (hweak _ _) hsorted, rfl⟩, ?_⟩
  intro p hp q hq
  refine hweak p q (sorted_take_drop (fun a b : Point2D => a.get d ≤ b.get d)
    (fun a => le_refl (a.get d)) _ hsorted (nth - first) p ?_ q hq)
  rw [List.take_succ]
  exact List.mem_append_left _ hp

open KDTree

/-! ## The tree operations on well-formed trees -/

theorem search_insert (t : KDTree) (p : Point2D) :
    ∀ (parent : Option Nat) (t1 : KDTree), t.insert p parent = .ok t1 →
      t1.search p = .ok (some p) := by
  induction t with
  | empty =>
    intro parent t1 h
    simp only [KDTree.insert, Except.ok.injEq] at h
    subst h
    simp [search, Point2D.equals_self]
  | leaf pt =>
    intro parent t1 h
    cases pt with
    | none => simp [KDTree.insert] at h
    | some q =>
      have hε := EPSILON_pos
      simp only [KDTree.insert] at h
      split_ifs at h with hlt
      · simp only [Except.ok.injEq] at h
        subst h
        have hlt' := compareDoubles_lt_zero.mp hlt
        have hmin : min (p.get (childDimension parent)) (q.get (childDimension parent))
            = q.get (childDimension parent) := min_eq_right (by linarith)
        have hgo : ¬ compareDoubles (p.get (childDimension parent))
            (q.get (childDimension parent)) < 1 := by
          rw [compareDoubles_lt_one]; linarith
        simp [search, hmin, hgo, Point2D.equals_self]
      · simp only [Except.ok.injEq] at h
        subst h
        have hlt' : ¬ _ := fun hh => hlt (compareDoubles_lt_zero.mpr hh)
        have hgo : compareDoubles (p.get (childDimension parent))
            (min (p.get (childDimension parent)) (q.get (childDimension parent))) < 1 := by
          rw [compareDoubles_lt_one]
          rcases min_cases (p.get (childDimension parent)) (q.get (childDimension parent))
            with ⟨h1, _⟩ | ⟨h1, _⟩ <;> rw [h1] <;> linarith
        simp [search, hgo, Point2D.equals_self]
  | node d m l r ihl ihr =>
    intro parent t1 h
    simp only [KDTree.insert] at h
    split_ifs at h with hgo
    · cases hl : l.insert p (some d) with
      | error e => simp [hl] at h
      | ok l1 =>
        simp only [hl, Except.ok.injEq] at h
        subst h
        simp [search, hgo, ihl _ _ hl]
    · cases hr : r.insert p (some d) with
      | error e => simp [hr] at h
      | ok r1 =>
        simp only [hr, Except.ok.injEq] at h
        subst h
        simp [search, hgo, ihr _ _ hr]

theorem insert_proper (t : KDTree) (p : Point2D) (ht : t.Proper) :
    ∀ parent : Option Nat, ∃ t1, t.insert p parent = .ok t1 ∧ t1.Proper ∧
      t1.storedPoints.Perm (p :: t.storedPoints) := by
  induction t with
  | empty => exact absurd ht (by simp [Proper])
  | leaf pt =>
    intro parent
    cases pt with
    | none => exact absurd ht (by simp [Proper])
    | some q =>
      simp only [KDTree.insert]
      split_ifs
      · exact ⟨_, rfl, by simp [Proper], by simp [storedPoints]; exact List.Perm.swap _ _ _⟩
      · exact ⟨_, rfl, by simp [Proper], by simp [storedPoints]⟩
  | node d m l r ihl ihr =>
    intro parent
    simp only [Proper] at ht
    simp only [KDTree.insert]
    split_ifs
    · obtain ⟨l1, h1, h2, h3⟩ := ihl ht.1 (some d)
      refine ⟨node d m l1 r, by simp [h1], ⟨h2, ht.2⟩, ?_⟩
      simp only [storedPoints]
      exact (h3.append_right _).trans (by simp)
    · obtain ⟨r1, h1, h2, h3⟩ := ihr ht.2 (some d)
      refine ⟨node d m l r1, by simp [h1], ⟨ht.1, h2⟩, ?_⟩
      simp only [storedPoints]
      exact (h3.append_left _).trans (by simp [List.perm_middle])

theorem insert_wellFormed (t : KDTree) (p : Point2D) (ht : t = empty ∨ t.Proper)
    (parent : Option Nat) : ∃ t1, t.insert p parent = .ok t1 ∧ t1.Proper ∧
      t1.storedPoints.Perm (p :: t.storedPoints) := by
  rcases ht with rfl | ht
  · exact ⟨_, rfl, by simp [Proper], by simp [storedPoints]⟩
  · exact insert_proper t p ht parent

theorem insertAll_wellFormed (points : List Point2D) :
    ∀ t : KDTree, (t = empty ∨ t.Proper) →
      ∃ t1, t.insertAll points = .ok t1 ∧ (t1 = empty ∨ t1.Proper) ∧
        t1.storedPoints.Perm (points.reverse ++ t.storedPoints) := by
  induction points with
  | nil => intro t ht; exact ⟨t, rfl, ht, by simp⟩
  | cons p ps ih =>
    intro t ht
    obtain ⟨t1, h1, h2, h3⟩ := insert_wellFormed t p ht none
    obtain ⟨t2, h4, h5, h6⟩ := ih t1 (Or.inr h2)
    refine ⟨t2, by simp [KDTree.insertAll, h1, h4], h5, h6.trans ?_⟩
    simp only [List.reverse_cons, List.append_assoc, List.singleton_append]
    exact h3.append_left _

theorem insertGrown_wellFormed {t : KDTree} (h : InsertGrown t) : t = empty ∨ t.Proper := by
  obtain ⟨points, hp⟩ := h
  obtain ⟨t1, h1, h2, -⟩ := insertAll_wellFormed points empty (Or.inl rfl)
  rw [hp] at h1
  cases h1
  exact h2

theorem displayPoints_proper (t : KDTree) (ht : t.Proper) :
    t.displayPoints = .ok t.storedPoints := by
  induction t with
  | empty => exact absurd ht (by simp [Proper])
  | leaf pt =>
    cases pt with
    | none => exact absurd ht (by simp [Proper])
    | some q => rfl
  | node d m l r ihl ihr =>
    simp only [Proper] at ht
    simp [displayPoints, storedPoints, ihl ht.1, ihr ht.2, thenOutput]

theorem nthElement_nil {nthElement : NthElement} (h : NthElementPerm nthElement) (d : Nat) :
    nthElement d 0 0 0 [] = [] := by
  obtain ⟨range, h1, h2⟩ := h d 0 0 0 [] (le_refl _) (le_refl _) (le_refl _)
  simp at h2
  simp [h1, h2]

theorem nthElement_pair {nthElement : NthElement} (h : NthElementPerm nthElement) (d : Nat)
    (a b : Point2D) :
    nthElement d 0 0 2 [a, b] = [a, b] ∨ nthElement d 0 0 2 [a, b] = [b, a] := by
  obtain ⟨range, h1, h2⟩ := h d 0 0 2 [a, b] (le_refl _) (by omega) (le_refl _)
  simp at h1 h2
  rw [h1]
  have hl := h2.length_eq
  match range, hl, h2 with
  | [x, y], _, h2 =>
    have hx : x ∈ [a, b] := h2.subset (by simp)
    have hy : y ∈ [a, b] := h2.subset (by simp)
    have ha : a ∈ [x, y] := h2.symm.subset (by simp)
    have hb : b ∈ [x, y] := h2.symm.subset (by simp)
    simp at hx hy ha hb
    rcases hx with rfl | rfl <;> rcases hy with rfl | rfl <;> simp_all

/-! ## Bulk construction -/

theorem nthElement_frame {nthElement : NthElement} (h : NthElementPerm nthElement) (d : Nat)
    (pre rng post : List Point2D) (k : Nat) (hk : k ≤ rng.length) :
    ∃ r1, nthElement d pre.length (pre.length + k) (pre.length + rng.length)
        (pre ++ rng ++ post) = pre ++ r1 ++ post ∧ r1.Perm rng := by
  obtain ⟨r1, h1, h2⟩ := h d pre.length (pre.length + k) (pre.length + rng.length)
    (pre ++ rng ++ post) (by omega) (by omega) (by simp)
  refine ⟨r1, ?_, ?_⟩
  · rw [h1]
    simp [List.take_append_eq_append_take, List.drop_append_eq_append_drop]
  · simpa [List.take_append_eq_append_take, List.drop_append_eq_append_drop] using h2

theorem vectorAt_frame (pre rng post : List Point2D) (k : Nat) (hk : k < rng.length)
    (i : Int) (hi : i = ((pre.length + k : Nat) : Int)) :
    vectorAt (pre ++ rng ++ post) i = .ok (rng.get ⟨k, hk⟩) := by
  subst hi
  have h0 : (0 : Int) ≤ ((pre.length + k : Nat) : Int) := Int.ofNat_nonneg _
  simp only [vectorAt, h0, if_true, Int.toNat_ofNat]
  have : (pre ++ rng ++ post)[pre.length + k]? = some (rng.get ⟨k, hk⟩) := by
    rw [List.append_assoc, List.getElem?_append_right (by omega)]
    simp [List.getElem?_append_left hk]
  rw [this]

theorem get_mem_take_drop {α : Type} : ∀ (l : List α) (k : Nat) (hk : k < l.length),
    l.get ⟨k, hk⟩ ∈ l.take (k + 1) ∧ l.get ⟨k, hk⟩ ∈ l.drop k := by
  intro l
  induction l with
  | nil => intro k hk; simp at hk
  | cons a t ih =>
    intro k hk
    cases k with
    | zero => simp
    | succ k =>
      obtain ⟨h1, h2⟩ := ih k (by simpa using hk)
      simp only [List.get_eq_getElem] at h1 h2
      constructor
      · simp only [List.get_eq_getElem, List.getElem_cons_succ, List.take_succ_cons,
          List.mem_cons]
        exact Or.inr h1
      · simpa using h2

/-- On a strict weak ordering, an element that is not greater than one that is less
than `c` is less than `c` -/
theorem StrictWeakOnAxis.less_of_not_less {d : Nat} {l : List Point2D}
    (h : StrictWeakOnAxis d l) {a b c : Point2D} (ha : a ∈ l) (hb : b ∈ l) (hc : c ∈ l)
    (hba : lessOnAxis d b a = false) (hbc : lessOnAxis d b c = true) :
    lessOnAxis d a c = true := by
  have hε := EPSILON_pos
  rw [← Bool.not_eq_true, lessOnAxis_iff, not_lt] at hba
  rw [lessOnAxis_iff] at hbc ⊢
  have hbc2 : b.get d - c.get d ≤ -(2 * EPSILON) := by
    rcases h.1 b hb c hc with h1 | h1
    · rw [abs_le] at h1
      linarith
    · rcases le_abs.mp h1 with h2 | h2 <;> linarith
  rcases h.1 a ha b hb with h1 | h1
  · rcases h.1 a ha c hc with h2 | h2
    · have h3 := h.2 b hb a ha c hc (by rwa [abs_sub_comm]) h2
      rw [abs_le] at h3
      linarith
    · rcases le_abs.mp h2 with h3 | h3
      · rw [abs_le] at h1
        linarith
      · linarith
  · rcases le_abs.mp h1 with h2 | h2 <;> linarith

/-- The two guarantees of `std::nth_element` together: on a strict weak ordering no
element after position `k` is less than the element at `k`.  Otherwise the `k` elements
before `k` and one element after it would be less than the element at `k`, while in the
sorted arrangement, a permutation, at most `k` elements are. -/
theorem pivot_not_less_after (d : Nat) (R S : List Point2D) (k : Nat) (pivot : Point2D)
    (hR : R[k]? = some pivot) (hS : S[k]? = some pivot)
    (hsw : StrictWeakOnAxis d R) (hperm : S.Perm R)
    (hsorted : S.Pairwise (fun a b => lessOnAxis d b a = false))
    (hpairs : ∀ p ∈ R.take k, ∀ q ∈ R.drop k, lessOnAxis d q p = false) :
    ∀ q ∈ R.drop (k + 1), lessOnAxis d q pivot = false := by
  intro q hq
  by_contra hlt
  rw [Bool.not_eq_false] at hlt
  obtain ⟨hk, hRk⟩ := List.getElem?_eq_some_iff.mp hR
  obtain ⟨hkS, hSk⟩ := List.getElem?_eq_some_iff.mp hS
  have hpR : pivot ∈ R := hRk ▸ List.getElem_mem hk
  have hpS : pivot ∈ S.take (k + 1) := by
    have := (get_mem_take_drop S k hkS).1
    rwa [List.get_eq_getElem, hSk] at this
  have hqR : q ∈ R.drop k := by
    rw [← List.drop_drop] at hq
    exact List.mem_of_mem_drop hq
  have c1 : S.countP (fun x => lessOnAxis d x pivot) ≤ k := by
    have hdrop : (S.drop k).countP (fun x => lessOnAxis d x pivot) = 0 := by
      rw [List.countP_eq_zero]
      intro x hx
      have := sorted_take_drop (fun a b => lessOnAxis d b a = false)
        (fun a => lessOnAxis_irrefl d a) S hsorted k pivot hpS x hx
      simp [this]
    have htake : (S.take k).countP (fun x => lessOnAxis d x pivot) ≤ k :=
      le_trans (List.countP_le_length _) (by rw [List.length_take]; exact min_le_left _ _)
    have hsplit := List.countP_append (fun x => lessOnAxis d x pivot) (S.take k) (S.drop k)
    rw [List.take_append_drop] at hsplit
    omega
  have c2 : k + 1 ≤ R.countP (fun x => lessOnAxis d x pivot) := by
    have htake : (R.take k).countP (fun x => lessOnAxis d x pivot) = k := by
      have hall : ∀ x ∈ R.take k, lessOnAxis d x pivot = true := by
        intro x hx
        exact hsw.less_of_not_less (List.mem_of_mem_take hx) (List.mem_of_mem_drop hq)
          hpR (hpairs x hx q hqR) hlt
      rw [List.countP_eq_length.mpr hall, List.length_take]
      omega
    have hdrop : 0 < (R.drop k).countP (fun x => lessOnAxis d x pivot) :=
      List.countP_pos_iff.mpr ⟨q, hqR, hlt⟩
    have hsplit := List.countP_append (fun x => lessOnAxis d x pivot) (R.take k) (R.drop k)
    rw [List.take_append_drop] at hsplit
    omega
  have := hperm.countP_eq (fun x => lessOnAxis d x pivot)
  omega

theorem nthElement_orders_frame {nthElement : NthElement} (h : NthElementOrders nthElement)
    (d : Nat) (pre rng post r1 : List Point2D) (k : Nat) (hk : k < rng.length)
    (hout : nthElement d pre.length (pre.length + k) (pre.length + rng.length)
        (pre ++ rng ++ post) = pre ++ r1 ++ post)
    (hlen : r1.length = rng.length) (hsep : StrictWeakOnAxis d r1) :
    ∀ p ∈ r1.take (k + 1), ∀ q ∈ r1.drop k, lessOnAxis d q p = false := by
  have h1 := h d pre.length (pre.length + k) (pre.length + rng.length)
    (pre ++ rng ++ post) (by omega) (by omega) (by simp)
  have hrange : ((pre ++ r1 ++ post).drop pre.length).take
      (pre.length + rng.length - pre.length) = r1 :=
    range_of_frame pre r1 post _ _ rfl (by omega)
  have hk0 : pre.length + k - pre.length = k := by omega
  rw [hout, hrange, hk0] at h1
  obtain ⟨⟨S, hperm, hsorted, hnth⟩, hpairs⟩ := h1 hsep
  have hk1 : k < r1.length := by omega
  have hR : r1[k]? = some r1[k] := List.getElem?_eq_getElem hk1
  have hafter := pivot_not_less_after d r1 S k r1[k] hR (hnth.trans hR) hsep hperm hsorted
    hpairs
  intro p hp q hq
  rw [List.drop_eq_getElem_cons hk1, List.mem_cons] at hq
  rw [List.take_succ, hR, Option.toList_some, List.mem_append, List.mem_singleton] at hp
  rcases hp with hp | rfl
  · refine hpairs p hp q ?_
    rw [List.drop_eq_getElem_cons hk1, List.mem_cons]
    exact hq
  · rcases hq with rfl | hq
    · exact lessOnAxis_irrefl d _
    · exact hafter q hq

theorem StrictWeakOnAxis.subset {axis : Nat} {l1 l2 : List Point2D}
    (h : StrictWeakOnAxis axis l2) (hsub : ∀ x ∈ l1, x ∈ l2) : StrictWeakOnAxis axis l1 :=
  ⟨fun p hp q hq => h.1 p (hsub p hp) q (hsub q hq),
    fun p hp q hq r hr => h.2 p (hsub p hp) q (hsub q hq) r (hsub r hr)⟩

theorem toInt_le {value : Int} (h : 0 ≤ value) : toInt value ≤ value := by
  simp only [toInt, INT_MIN]
  norm_num
  omega

theorem int_range_of_bound {pre len : Nat} {b e : Int} (hb : b = (pre : Int))
    (he : e = ((pre + len : Nat) : Int) - 1) (h2 : 2 ≤ len) (hbound : pre + len ≤ 2 ^ 30 + 1) :
    ¬ (b + e < INT_MIN ∨ INT_MAX < b + e) := by
  have h30 : (2 : Nat) ^ 30 = 1073741824 := by norm_num
  rw [h30] at hbound
  simp only [INT_MIN, INT_MAX]
  norm_num
  subst hb he
  push_cast
  constructor <;> omega

theorem buildKDtree_frame {nthElement : NthElement} (h : NthElementPerm nthElement) :
    ∀ (fuel : Nat) (pre rng post : List Point2D) (beginIdx endIdx : Int) (parent : Option Nat),
      rng ≠ [] → rng.length ≤ fuel → pre.length + rng.length ≤ 2 ^ 30 + 1 →
      beginIdx = (pre.length : Int) →
      endIdx = ((pre.length + rng.length : Nat) : Int) - 1 →
      ∃ t mid, buildKDtree nthElement fuel (pre ++ rng ++ post) beginIdx endIdx parent
          = .ok (t, pre ++ mid ++ post) ∧
        mid.Perm rng ∧ t.Proper ∧ t.storedPoints = mid ∧
        (NthElementOrders nthElement → ∀ axis, StrictWeakOnAxis axis rng →
          t.PartitionedOn axis) := by
  intro fuel
  induction fuel with
  | zero =>
    intro pre rng post b e parent hne hlen
    have := List.length_pos.mpr hne
    omega
  | succ fuel ih =>
    intro pre rng post b e parent hne hlen hbound hb he
    have hpos : 0 < rng.length := List.length_pos.mpr hne
    by_cases h1 : rng.length = 1
    · have hbe : b = e := by rw [hb, he, h1]; push_cast; ring
      obtain ⟨x, hx⟩ : ∃ x, rng = [x] := List.length_eq_one.mp h1
      subst hx
      have hat := vectorAt_frame pre [x] post 0 (by simp) b (by simpa using hb)
      refine ⟨leaf (some x), [x], ?_, List.Perm.refl _, by simp [Proper], rfl,
        fun _ _ _ => by simp [PartitionedOn]⟩
      simp only [buildKDtree, hbe.symm, ne_eq, not_true_eq_false, if_false, hat]
      simp
    · have hn : 2 ≤ rng.length := by omega
      have hbe : b ≠ e := by rw [hb, he]; push_cast; omega
      have hint := int_range_of_bound hb he hn hbound
      have hmid : (b + e).tdiv 2 = ((pre.length + (rng.length - 1) / 2 : Nat) : Int) := by
        rw [Int.tdiv_eq_ediv (by rw [hb, he]; push_cast; omega) (by norm_num), hb, he]
        push_cast
        omega
      have hk1 : (rng.length - 1) / 2 + 1 < rng.length := by omega
      generalize hkdef : (rng.length - 1) / 2 = k at hmid hk1
      have hrange : 0 ≤ b ∧ b ≤ ((pre.length + k : Nat) : Int) ∧
          ((pre.length + k : Nat) : Int) ≤ e + 1 ∧
          e + 1 ≤ ((pre ++ rng ++ post).length : Int) := by
        rw [hb, he]
        simp only [List.length_append]
        push_cast
        omega
      have hb' : b.toNat = pre.length := by rw [hb]; simp
      have he' : (e + 1).toNat = pre.length + rng.length := by
        have : e + 1 = ((pre.length + rng.length : Nat) : Int) := by rw [he]; ring
        rw [this]
        exact Int.toNat_ofNat _
      obtain ⟨r1, hnth, hperm⟩ :=
        nthElement_frame h (childDimension parent) pre rng post k (by omega)
      have hlen1 : r1.length = rng.length := hperm.length_eq
      have hk : k < r1.length := by omega
      have hat := vectorAt_frame pre r1 post k hk _ rfl
      obtain ⟨hpivA, hpivB⟩ := get_mem_take_drop r1 k hk
      -- the two halves
      have hA_ne : r1.take (k + 1) ≠ [] := by
        intro hnil
        have := congrArg List.length hnil
        rw [List.length_take, List.length_nil] at this
        omega
      have hB_ne : r1.drop (k + 1) ≠ [] := by
        intro hnil
        have := congrArg List.length hnil
        rw [List.length_drop, List.length_nil] at this
        omega
      have hA_len : (r1.take (k + 1)).length = k + 1 := by simp; omega
      have hB_len : (r1.drop (k + 1)).length = rng.length - (k + 1) := by simp [hlen1]
      have hsplit : pre ++ r1 ++ post = pre ++ r1.take (k + 1) ++ (r1.drop (k + 1) ++ post) := by
        simp only [List.append_assoc]
        rw [← List.append_assoc (r1.take (k + 1)), List.take_append_drop]
      obtain ⟨tl, midA, hbl, hpermA, hpropA, hstoA, hpartA⟩ :=
        ih pre (r1.take (k + 1)) (r1.drop (k + 1) ++ post) b ((pre.length + k : Nat) : Int)
          (some (childDimension parent)) hA_ne (by omega) (by omega) hb
          (by rw [hA_len]; push_cast; ring)
      have hmidA_len : midA.length = k + 1 := hpermA.length_eq.trans hA_len
      obtain ⟨tr, midB, hbr, hpermB, hpropB, hstoB, hpartB⟩ :=
        ih (pre ++ midA) (r1.drop (k + 1)) post (((pre.length + k : Nat) : Int) + 1) e
          (some (childDimension parent)) hB_ne (by omega)
          (by simp only [List.length_append, hmidA_len, hB_len]; omega)
          (by simp only [List.length_append, hmidA_len]; push_cast; ring)
          (by rw [he, hB_len]; simp only [List.length_append, hmidA_len]; push_cast; omega)
      refine ⟨node (childDimension parent) ((r1.get ⟨k, hk⟩).get (childDimension parent)) tl tr,
        midA ++ midB, ?_, ?_, ⟨hpropA, hpropB⟩, by simp [storedPoints, hstoA, hstoB], ?_⟩
      · simp only [buildKDtree, ne_eq, hbe, not_false_eq_true, if_true, hint, if_false, hmid,
          hrange, and_self, hb', he', Int.toNat_ofNat, hnth, hat]
        rw [hsplit, hbl]
        simp only [List.append_assoc] at hbr ⊢
        rw [hbr]
      · calc (midA ++ midB).Perm (r1.take (k + 1) ++ r1.drop (k + 1)) := hpermA.append hpermB
          _ = r1 := List.take_append_drop _ _
          _ |>.Perm rng := hperm
      · intro hord axis hsep
        have hsep1 : StrictWeakOnAxis axis r1 := hsep.subset (fun x hx => hperm.subset hx)
        refine ⟨?_, hpartA hord axis (hsep1.subset (fun x hx => List.mem_of_mem_take hx)),
          hpartB hord axis (hsep1.subset (fun x hx => List.mem_of_mem_drop hx))⟩
        intro hd
        have hε := EPSILON_pos
        have hord1 := nthElement_orders_frame hord (childDimension parent) pre rng post r1 k
          (by omega) hnth hlen1 (hd ▸ hsep1)
        refine ⟨?_, ?_, ?_⟩
        · intro p hp
          rw [hstoA] at hp
          have := hord1 p (hpermA.subset hp) _ hpivB
          simp only [lessOnAxis, Point2D.compareDimension, decide_eq_false_iff_not,
            compareDoubles_lt_zero] at this
          rw [compareDoubles_lt_one]
          linarith
        · intro q hq
          rw [hstoB] at hq
          have hq1 : q ∈ (r1.drop k).drop 1 := by
            rw [List.drop_drop]
            simpa [add_comm] using hpermB.subset hq
          have := hord1 _ hpivA q (List.mem_of_mem_drop hq1)
          simp only [lessOnAxis, Point2D.compareDimension, decide_eq_false_iff_not,
            compareDoubles_lt_zero] at this
          rw [gt_iff_lt, ← gt_iff_lt, compareDoubles_gt_neg_one]
          linarith
        · refine ⟨r1.get ⟨k, hk⟩, ?_, rfl⟩
          rw [hstoA]
          exact List.mem_append_left _ (hpermA.symm.subset hpivA)

theorem buildKDtree_fuel_succ (nthElement : NthElement) :
    ∀ (fuel : Nat) (points : List Point2D) (beginIdx endIdx : Int) (parent : Option Nat)
      (res : KDTree × List Point2D),
      buildKDtree nthElement fuel points beginIdx endIdx parent = .ok res →
      buildKDtree nthElement (fuel + 1) points beginIdx endIdx parent = .ok res := by
  intro fuel
  induction fuel with
  | zero => intro points b e parent res h; simp [buildKDtree] at h
  | succ n ih =>
    intro points b e parent res h
    rw [buildKDtree] at h ⊢
    by_cases hbe : b ≠ e
    · simp only [hbe, if_true] at h ⊢
      split_ifs at h ⊢ with hov hr
      · revert h
        cases hv : vectorAt (nthElement (childDimension parent) b.toNat ((b + e).tdiv 2).toNat
            (e + 1).toNat points) ((b + e).tdiv 2) with
        | error err => simp
        | ok pivot =>
          simp only
          cases hl : buildKDtree nthElement n (nthElement (childDimension parent) b.toNat
              ((b + e).tdiv 2).toNat (e + 1).toNat points) b ((b + e).tdiv 2)
              (some (childDimension parent)) with
          | error err => simp
          | ok lres =>
            obtain ⟨left, points2⟩ := lres
            rw [ih _ _ _ _ _ hl]
            simp only
            cases hr2 : buildKDtree nthElement n points2 ((b + e).tdiv 2 + 1) e
                (some (childDimension parent)) with
            | error err => simp
            | ok rres =>
              rw [ih _ _ _ _ _ hr2]
              intro h
              exact h
    · simp only [hbe, if_false] at h ⊢
      exact h

theorem buildKDtree_fuel_mono (nthElement : NthElement) (fuel extra : Nat)
    (points : List Point2D) (beginIdx endIdx : Int) (parent : Option Nat)
    (res : KDTree × List Point2D)
    (h : buildKDtree nthElement fuel points beginIdx endIdx parent = .ok res) :
    buildKDtree nthElement (fuel + extra) points beginIdx endIdx parent = .ok res := by
  induction extra with
  | zero => exact h
  | succ n ih => exact buildKDtree_fuel_succ nthElement _ _ _ _ _ _ ih

theorem buildKDtree_shape (nthElement : NthElement) :
    ∀ (fuel : Nat) (points : List Point2D) (beginIdx endIdx : Int) (parent : Option Nat)
      (t : KDTree) (final : List Point2D),
      buildKDtree nthElement fuel points beginIdx endIdx parent = .ok (t, final) →
      0 ≤ beginIdx → beginIdx ≤ endIdx →
      t.Proper ∧ (t.storedPoints.length : Int) = endIdx - beginIdx + 1 ∧
        t.MedianSplit ∧ t.AxisAlternates parent := by
  intro fuel
  induction fuel with
  | zero => intro points b e parent t final h; simp [buildKDtree] at h
  | succ n ih =>
    intro points b e parent t final h h0 hle
    rw [buildKDtree] at h
    by_cases hbe : b ≠ e
    · simp only [hbe, if_true] at h
      have hm : (b + e).tdiv 2 = (b + e) / 2 := Int.tdiv_eq_ediv (by omega) (by norm_num)
      split_ifs at h with hov hr
      rw [hm] at h
      revert h
      cases hv : vectorAt (nthElement (childDimension parent) b.toNat ((b + e) / 2).toNat
          (e + 1).toNat points) ((b + e) / 2) with
      | error err => simp
      | ok pivot =>
        simp only
        cases hl : buildKDtree nthElement n (nthElement (childDimension parent) b.toNat
            ((b + e) / 2).toNat (e + 1).toNat points) b ((b + e) / 2)
            (some (childDimension parent)) with
        | error err => simp
        | ok lres =>
          obtain ⟨left, points2⟩ := lres
          simp only
          cases hr2 : buildKDtree nthElement n points2 ((b + e) / 2 + 1) e
              (some (childDimension parent)) with
          | error err => simp
          | ok rres =>
            obtain ⟨right, points3⟩ := rres
            simp only [Except.ok.injEq, Prod.mk.injEq]
            rintro ⟨rfl, rfl⟩
            obtain ⟨hp1, hl1, hm1, ha1⟩ := ih _ _ _ _ _ _ hl h0 (by omega)
            obtain ⟨hp2, hl2, hm2, ha2⟩ := ih _ _ _ _ _ _ hr2 (by omega) (by omega)
            refine ⟨⟨hp1, hp2⟩, ?_, ⟨?_, ?_, hm1, hm2⟩, ⟨rfl, ha1, ha2⟩⟩
            · simp only [storedPoints, List.length_append]
              push_cast
              omega
            · omega
            · omega
    · simp only [hbe, if_false] at h
      revert h
      cases hv : vectorAt points b with
      | error err => simp
      | ok p =>
        simp only [Except.ok.injEq, Prod.mk.injEq]
        rintro ⟨rfl, rfl⟩
        have hbe' : b = e := not_not.mp hbe
        refine ⟨by simp [Proper], ?_, by simp [MedianSplit], by simp [AxisAlternates]⟩
        simp only [storedPoints, List.length_singleton]
        push_cast
        omega

theorem buildKDtree_one_neg_one (nthElement : NthElement) (fuel : Nat)
    (points : List Point2D) (parent : Option Nat) (res : KDTree × List Point2D) :
    buildKDtree nthElement fuel points 1 (-1) parent ≠ .ok res := by
  cases fuel with
  | zero => simp [buildKDtree]
  | succ n =>
    norm_num [buildKDtree, INT_MIN, INT_MAX]
    intro h
    cases h

/-- A call on the range `[0, end]` with a negative `end` does not return: the range
handed to `nth_element` is invalid, at once or in the right subcall -/
theorem buildKDtree_negative_end (nthElement : NthElement) (fuel : Nat)
    (points : List Point2D) (endIdx : Int) (parent : Option Nat)
    (res : KDTree × List Point2D) (he : endIdx < 0) :
    buildKDtree nthElement fuel points 0 endIdx parent ≠ .ok res := by
  intro h
  cases fuel with
  | zero => simp [buildKDtree] at h
  | succ n =>
    rw [buildKDtree] at h
    have hbe : (0 : Int) ≠ endIdx := by omega
    simp only [hbe, ne_eq, not_false_eq_true, if_true] at h
    split_ifs at h with hov hr
    obtain ⟨m, rfl⟩ : ∃ m : Nat, endIdx = -((m : Int) + 1) := ⟨(-endIdx - 1).toNat, by omega⟩
    have hm : (0 + -((m : Int) + 1)).tdiv 2 = -((((m + 1) / 2 : Nat)) : Int) := by
      rw [zero_add, Int.neg_tdiv, Int.tdiv_eq_ediv (by omega) (by norm_num)]
      norm_cast
    rw [hm] at hr h
    have hm0 : m = 0 := by omega
    subst hm0
    norm_num at h
    revert h
    cases hv : vectorAt (nthElement (childDimension parent) 0 0 0 points) 0 with
    | error err => simp
    | ok pivot =>
      simp only
      cases hl : buildKDtree nthElement n (nthElement (childDimension parent) 0 0 0 points) 0 0
          (some (childDimension parent)) with
      | error err => simp
      | ok lres =>
        obtain ⟨left, points2⟩ := lres
        simp only
        cases hr2 : buildKDtree nthElement n points2 1 (-1) (some (childDimension parent)) with
        | error err => simp
        | ok rres => exact absurd hr2 (buildKDtree_one_neg_one _ _ _ _ _)

theorem build_nil (nthElement : NthElement) (fuel : Nat)
    (res : KDTree × List Point2D) : build nthElement fuel [] ≠ .ok res := by
  have he : toInt (((([] : List Point2D).length : Nat) : Int) - 1) = -1 := by
    norm_num [toInt, INT_MIN]
  rw [build, he]
  exact buildKDtree_negative_end _ _ _ _ _ _ (by norm_num)

/-- From an index range that ends at `2^30 + 1` or beyond, `begin + end` overflows the
`int` somewhere on the rightmost path of the recursion: the call does not return -/
theorem buildKDtree_overflow (nthElement : NthElement) :
    ∀ (fuel : Nat) (points : List Point2D) (beginIdx endIdx : Int) (parent : Option Nat)
      (res : KDTree × List Point2D),
      0 ≤ beginIdx → beginIdx < endIdx → 2 ^ 30 + 1 ≤ endIdx →
      buildKDtree nthElement fuel points beginIdx endIdx parent ≠ .ok res := by
  intro fuel
  induction fuel with
  | zero => intro points b e parent res _ _ _; simp [buildKDtree]
  | succ n ih =>
    intro points b e parent res h0 hlt hbig h
    have hbe : b ≠ e := ne_of_lt hlt
    rw [buildKDtree] at h
    simp only [hbe, ne_eq, not_false_eq_true, if_true] at h
    split_ifs at h with hov hr
    have hm : (b + e).tdiv 2 = (b + e) / 2 := Int.tdiv_eq_ediv (by omega) (by norm_num)
    rw [hm] at h
    revert h
    cases hv : vectorAt (nthElement (childDimension parent) b.toNat ((b + e) / 2).toNat
        (e + 1).toNat points) ((b + e) / 2) with
    | error err => simp
    | ok pivot =>
      simp only
      cases hl : buildKDtree nthElement n (nthElement (childDimension parent) b.toNat
          ((b + e) / 2).toNat (e + 1).toNat points) b ((b + e) / 2)
          (some (childDimension parent)) with
      | error err => simp
      | ok lres =>
        obtain ⟨left, points2⟩ := lres
        simp only
        cases hr2 : buildKDtree nthElement n points2 ((b + e) / 2 + 1) e
            (some (childDimension parent)) with
        | error err => simp
        | ok rres =>
          exfalso
          simp only [INT_MIN, INT_MAX, not_or, not_lt] at hov
          norm_num at hov hbig
          exact ih points2 ((b + e) / 2 + 1) e (some (childDimension parent)) rres
            (by omega) (by omega) (by norm_num; exact hbig) hr2

/-- When the loader's call returns, the converted last index is a valid index of the
vector, at most `2^30` -/
theorem build_end_range {nthElement : NthElement} {fuel : Nat} {points : List Point2D}
    {res : KDTree × List Point2D} (h : build nthElement fuel points = .ok res) :
    0 ≤ toInt ((points.length : Int) - 1) ∧ toInt ((points.length : Int) - 1) ≤ 2 ^ 30 ∧
      toInt ((points.length : Int) - 1) + 1 ≤ (points.length : Int) := by
  rw [build] at h
  have h0 : 0 ≤ toInt ((points.length : Int) - 1) := by
    by_contra hneg
    exact buildKDtree_negative_end _ _ _ _ _ _ (not_le.mp hneg) h
  refine ⟨h0, ?_, ?_⟩
  · by_contra hbig
    refine buildKDtree_overflow nthElement fuel points 0 _ none res (le_refl _) ?_ ?_ h
    · norm_num at hbig
      omega
    · norm_num at hbig ⊢
      omega
  · have hv : 0 ≤ (points.length : Int) - 1 := by
      by_contra hv
      have hlen : (points.length : Int) - 1 = -1 := by omega
      rw [hlen] at h0
      norm_num [toInt, INT_MIN] at h0
    have := toInt_le hv
    omega

theorem built_spec {t : KDTree} (h : Built t) : t.Proper := by
  obtain ⟨nthElement, fuel, points, final, -, hb⟩ := h
  have h0 := (build_end_range hb).1
  exact (buildKDtree_shape nthElement fuel points 0 _ none t final hb (le_refl _) h0).1

theorem builtOrdered_partitionedOn {t : KDTree} (h : BuiltOrdered t) (axis : Nat)
    (hsep : StrictWeakOnAxis axis t.storedPoints) : t.Proper ∧ t.PartitionedOn axis := by
  obtain ⟨nthElement, fuel, points, final, hpost, hb⟩ := h
  obtain ⟨h0, h30, hlen⟩ := build_end_range hb
  rw [build] at hb
  generalize toInt ((points.length : Int) - 1) = e at h0 h30 hlen hb
  obtain ⟨k, rfl⟩ := Int.eq_ofNat_of_zero_le h0
  have hk : k + 1 ≤ points.length := by omega
  have hk30 : k ≤ 2 ^ 30 := by exact_mod_cast h30
  have htake : (points.take (k + 1)).length = k + 1 := by
    rw [List.length_take]
    omega
  have hrng : points.take (k + 1) ≠ [] := by
    intro hnil
    rw [hnil] at htake
    simp at htake
  obtain ⟨t1, mid, h1, hp, h3, h4, h5⟩ :=
    buildKDtree_frame hpost.1 (fuel + (k + 1)) [] (points.take (k + 1)) (points.drop (k + 1))
      0 (k : Int) none hrng (by rw [htake]; omega)
      (by rw [htake]; simp only [List.length_nil]; omega) (by simp)
      (by rw [htake]; simp)
  rw [List.nil_append, List.take_append_drop] at h1
  have h2 := buildKDtree_fuel_mono nthElement fuel (k + 1) points 0 (k : Int) none _ hb
  rw [h2] at h1
  simp only [Except.ok.injEq, Prod.mk.injEq] at h1
  obtain ⟨rfl, -⟩ := h1
  refine ⟨h3, h5 hpost.2 axis (hsep.subset ?_)⟩
  intro x hx
  rw [h4]
  exact hp.symm.subset hx

theorem insert_weaklyPartitioned (t : KDTree) (p : Point2D) :
    ∀ (parent : Option Nat) (t1 : KDTree), t.Proper → t.WeaklyPartitioned →
      t.insert p parent = .ok t1 → t1.WeaklyPartitioned := by
  induction t with
  | empty => intro _ _ ht; exact absurd ht (by simp [Proper])
  | leaf pt =>
    intro parent t1 ht _ h
    cases pt with
    | none => exact absurd ht (by simp [Proper])
    | some q =>
      have hε := EPSILON_pos
      simp only [KDTree.insert] at h
      split_ifs at h with hlt
      · simp only [Except.ok.injEq] at h
        subst h
        have hlt' := compareDoubles_lt_zero.mp hlt
        have hmin : min (p.get (childDimension parent)) (q.get (childDimension parent))
            = q.get (childDimension parent) := min_eq_right (by linarith)
        simp only [WeaklyPartitioned, storedPoints, List.mem_singleton, forall_eq, hmin,
          and_true, compareDoubles_lt_one, gt_iff_lt]
        refine ⟨by linarith, ?_, q, by simp, rfl⟩
        rw [← gt_iff_lt, compareDoubles_gt_neg_one]
        linarith
      · simp only [Except.ok.injEq] at h
        subst h
        have hlt' : ¬ _ := fun hh => hlt (compareDoubles_lt_zero.mpr hh)
        simp only [WeaklyPartitioned, storedPoints, List.mem_singleton, forall_eq,
          and_true, compareDoubles_lt_one, gt_iff_lt]
        refine ⟨?_, ?_, ?_⟩
        · rcases min_cases (p.get (childDimension parent)) (q.get (childDimension parent))
            with ⟨h1, _⟩ | ⟨h1, _⟩ <;> rw [h1] <;> linarith
        · rw [← gt_iff_lt, compareDoubles_gt_neg_one]
          have := min_le_right (p.get (childDimension parent)) (q.get (childDimension parent))
          linarith
        · rcases min_cases (p.get (childDimension parent)) (q.get (childDimension parent))
            with ⟨h1, _⟩ | ⟨h1, _⟩
          · exact ⟨p, by simp, h1.symm⟩
          · exact ⟨q, by simp, h1.symm⟩
  | node d m l r ihl ihr =>
    intro parent t1 ht hwp h
    simp only [Proper] at ht
    simp only [WeaklyPartitioned] at hwp
    obtain ⟨hL, hR, ⟨s, hs, hsm⟩, hwl, hwr⟩ := hwp
    simp only [KDTree.insert] at h
    split_ifs at h with hgo
    · obtain ⟨l1, h1, -, h3⟩ := insert_proper l p ht.1 (some d)
      simp only [h1, Except.ok.injEq] at h
      subst h
      refine ⟨?_, hR, ⟨s, ?_, hsm⟩, ihl _ _ ht.1 hwl h1, hwr⟩
      · intro x hx
        rcases List.mem_cons.mp (h3.subset hx) with rfl | hx
        · exact hgo
        · exact hL x hx
      · rcases List.mem_append.mp hs with hs | hs
        · exact List.mem_append_left _ (h3.symm.subset (List.mem_cons_of_mem _ hs))
        · exact List.mem_append_right _ hs
    · obtain ⟨r1, h1, -, h3⟩ := insert_proper r p ht.2 (some d)
      simp only [h1, Except.ok.injEq] at h
      subst h
      refine ⟨hL, ?_, ⟨s, ?_, hsm⟩, hwl, ihr _ _ ht.2 hwr h1⟩
      · intro x hx
        rcases List.mem_cons.mp (h3.subset hx) with rfl | hx
        · have hε := EPSILON_pos
          rw [compareDoubles_lt_one] at hgo
          rw [compareDoubles_gt_neg_one]
          linarith
        · exact hR x hx
      · rcases List.mem_append.mp hs with hs | hs
        · exact List.mem_append_left _ hs
        · exact List.mem_append_right _ (h3.symm.subset (List.mem_cons_of_mem _ hs))

theorem insertAll_weaklyPartitioned (points : List Point2D) :
    ∀ t t1 : KDTree, (t = empty ∨ t.Proper) → t.WeaklyPartitioned →
      t.insertAll points = .ok t1 → t1.WeaklyPartitioned := by
  induction points with
  | nil =>
    intro t t1 _ hw h
    simp only [KDTree.insertAll, Except.ok.injEq] at h
    subst h
    exact hw
  | cons p ps ih =>
    intro t t1 ht hw h
    obtain ⟨t2, h1, h2, -⟩ := insert_wellFormed t p ht none
    simp only [KDTree.insertAll, h1] at h
    refine ih t2 t1 (Or.inr h2) ?_ h
    rcases ht with rfl | ht
    · simp only [KDTree.insert, Except.ok.injEq] at h1
      subst h1
      simp [WeaklyPartitioned]
    · exact insert_weaklyPartitioned t p none t2 ht hw h1

theorem insertGrown_weaklyPartitioned {t : KDTree} (h : InsertGrown t) :
    t.WeaklyPartitioned := by
  obtain ⟨points, hp⟩ := h
  exact insertAll_weaklyPartitioned points empty t (Or.inl rfl) (by simp [WeaklyPartitioned]) hp

/-! ## Minimum and maximum -/

theorem weaklyPartitioned_partitionedOn (axis : Nat) (t : KDTree) :
    t.WeaklyPartitioned → t.PartitionedOn axis := by
  induction t with
  | empty => intro _; trivial
  | leaf pt => intro _; trivial
  | node d m l r ihl ihr =>
    intro h
    simp only [WeaklyPartitioned] at h
    exact ⟨fun _ => ⟨h.1, h.2.1, h.2.2.1⟩, ihl h.2.2.2.1, ihr h.2.2.2.2⟩

theorem exists_min_on_axis (axis : Nat) (points : List Point2D) (hne : points ≠ []) :
    ∃ p ∈ points, ∀ q ∈ points, p.get axis ≤ q.get axis := by
  induction points with
  | nil => exact absurd rfl hne
  | cons x xs ih =>
    by_cases hxs : xs = []
    · subst hxs
      exact ⟨x, by simp, by simp⟩
    · obtain ⟨p, hp, hmin⟩ := ih hxs
      rcases le_total (x.get axis) (p.get axis) with h | h
      · refine ⟨x, by simp, ?_⟩
        intro q hq
        rcases List.mem_cons.mp hq with rfl | hq
        · exact le_refl _
        · exact le_trans h (hmin q hq)
      · refine ⟨p, List.mem_cons_of_mem _ hp, ?_⟩
        intro q hq
        rcases List.mem_cons.mp hq with rfl | hq
        · exact h
        · exact hmin q hq

theorem exists_max_on_axis (axis : Nat) (points : List Point2D) (hne : points ≠ []) :
    ∃ p ∈ points, ∀ q ∈ points, q.get axis ≤ p.get axis := by
  induction points with
  | nil => exact absurd rfl hne
  | cons x xs ih =>
    by_cases hxs : xs = []
    · subst hxs
      exact ⟨x, by simp, by simp⟩
    · obtain ⟨p, hp, hmax⟩ := ih hxs
      rcases le_total (p.get axis) (x.get axis) with h | h
      · refine ⟨x, by simp, ?_⟩
        intro q hq
        rcases List.mem_cons.mp hq with rfl | hq
        · exact le_refl _
        · exact le_trans (hmax q hq) h
      · refine ⟨p, List.mem_cons_of_mem _ hp, ?_⟩
        intro q hq
        rcases List.mem_cons.mp hq with rfl | hq
        · exact h
        · exact hmax q hq

theorem proper_storedPoints_ne_nil (t : KDTree) (ht : t.Proper) : t.storedPoints ≠ [] := by
  induction t with
  | empty => exact absurd ht (by simp [Proper])
  | leaf pt =>
    cases pt with
    | none => exact absurd ht (by simp [Proper])
    | some q => simp [storedPoints]
  | node d m l r ihl _ =>
    simp only [Proper] at ht
    simp [storedPoints, ihl ht.1]

/-- With `v` a lower bound that every stored coordinate on the axis equals or exceeds
by `2 * EPSILON`, `findMin` returns a stored point, and one with coordinate `v` when
some stored point has it -/
theorem findMin_separated (a : Nat) (v : ℚ) (t : KDTree) :
    t.Proper → t.PartitionedOn a →
    (∀ q ∈ t.storedPoints, q.get a = v ∨ v + 2 * EPSILON ≤ q.get a) →
    ∃ r, t.findMin a = .ok (some r) ∧ r ∈ t.storedPoints ∧
      ((∃ q ∈ t.storedPoints, q.get a = v) → r.get a = v) := by
  have hε := EPSILON_pos
  induction t with
  | empty => intro ht; exact absurd ht (by simp [Proper])
  | leaf pt =>
    intro ht _ _
    cases pt with
    | none => exact absurd ht (by simp [Proper])
    | some q =>
      refine ⟨q, rfl, by simp [storedPoints], ?_⟩
      rintro ⟨s, hs, hsv⟩
      simp only [storedPoints, List.mem_singleton] at hs
      exact hs ▸ hsv
  | node d m l r ihl ihr =>
    intro ht hpart hgap
    simp only [Proper] at ht
    simp only [PartitionedOn] at hpart
    simp only [storedPoints] at hgap ⊢
    obtain ⟨rl, hl1, hl2, hl3⟩ := ihl ht.1 hpart.2.1
      (fun q hq => hgap q (List.mem_append_left _ hq))
    obtain ⟨rr, hr1, hr2, hr3⟩ := ihr ht.2 hpart.2.2
      (fun q hq => hgap q (List.mem_append_right _ hq))
    by_cases hd : d = a
    · subst hd
      obtain ⟨hL, hR, s, hs, hsm⟩ := hpart.1 rfl
      refine ⟨rl, by simp [findMin, hl1], List.mem_append_left _ hl2, ?_⟩
      rintro ⟨q, hq, hqv⟩
      rcases List.mem_append.mp hq with hq | hq
      · exact hl3 ⟨q, hq, hqv⟩
      · have h1 := compareDoubles_gt_neg_one.mp (hR q hq)
        have h2 := compareDoubles_lt_one.mp (hL rl hl2)
        have hm : m = v := by
          rcases hgap s hs with h | h
          · rw [← hsm, h]
          · rw [hsm] at h
            linarith
        rcases hgap rl (List.mem_append_left _ hl2) with h | h
        · exact h
        · linarith
    · by_cases hc : rl.compareDimension rr a < 1
      · refine ⟨rl, by simp [findMin, hd, hl1, hr1, hc], List.mem_append_left _ hl2, ?_⟩
        rintro ⟨q, hq, hqv⟩
        rcases List.mem_append.mp hq with hq | hq
        · exact hl3 ⟨q, hq, hqv⟩
        · have h1 := hr3 ⟨q, hq, hqv⟩
          simp only [Point2D.compareDimension, compareDoubles_lt_one] at hc
          rcases hgap rl (List.mem_append_left _ hl2) with h | h
          · exact h
          · linarith
      · refine ⟨rr, by simp [findMin, hd, hl1, hr1, hc], List.mem_append_right _ hr2, ?_⟩
        rintro ⟨q, hq, hqv⟩
        rcases List.mem_append.mp hq with hq | hq
        · have h1 := hl3 ⟨q, hq, hqv⟩
          simp only [Point2D.compareDimension, compareDoubles_lt_one, not_le] at hc
          rcases hgap rr (List.mem_append_right _ hr2) with h | h
          · exact h
          · linarith
        · exact hr3 ⟨q, hq, hqv⟩

/-- With `v` an upper bound that every stored coordinate on the axis equals or stays
`2 * EPSILON` below, `findMax` returns a stored point, and one with coordinate `v` when
some stored point has it -/
theorem findMax_separated (a : Nat) (v : ℚ) (t : KDTree) :
    t.Proper → t.PartitionedOn a →
    (∀ q ∈ t.storedPoints, q.get a = v ∨ q.get a + 2 * EPSILON ≤ v) →
    ∃ r, t.findMax a = .ok (some r) ∧ r ∈ t.storedPoints ∧
      ((∃ q ∈ t.storedPoints, q.get a = v) → r.get a = v) := by
  have hε := EPSILON_pos
  induction t with
  | empty => intro ht; exact absurd ht (by simp [Proper])
  | leaf pt =>
    intro ht _ _
    cases pt with
    | none => exact absurd ht (by simp [Proper])
    | some q =>
      refine ⟨q, rfl, by simp [storedPoints], ?_⟩
      rintro ⟨s, hs, hsv⟩
      simp only [storedPoints, List.mem_singleton] at hs
      exact hs ▸ hsv
  | node d m l r ihl ihr =>
    intro ht hpart hgap
    simp only [Proper] at ht
    simp only [PartitionedOn] at hpart
    simp only [storedPoints] at hgap ⊢
    obtain ⟨rl, hl1, hl2, hl3⟩ := ihl ht.1 hpart.2.1
      (fun q hq => hgap q (List.mem_append_left _ hq))
    obtain ⟨rr, hr1, hr2, hr3⟩ := ihr ht.2 hpart.2.2
      (fun q hq => hgap q (List.mem_append_right _ hq))
    by_cases hd : d = a
    · subst hd
      obtain ⟨hL, hR, s, hs, hsm⟩ := hpart.1 rfl
      refine ⟨rr, by simp [findMax, hr1], List.mem_append_right _ hr2, ?_⟩
      rintro ⟨q, hq, hqv⟩
      rcases List.mem_append.mp hq with hq | hq
      · have h1 := compareDoubles_lt_one.mp (hL q hq)
        have h2 := compareDoubles_gt_neg_one.mp (hR rr hr2)
        have hm : m = v := by
          rcases hgap s hs with h | h
          · rw [← hsm, h]
          · rw [hsm] at h
            linarith
        rcases hgap rr (List.mem_append_right _ hr2) with h | h
        · exact h
        · linarith
      · exact hr3 ⟨q, hq, hqv⟩
    · by_cases hc : rl.compareDimension rr a < 1
      · refine ⟨rr, by simp [findMax, hd, hl1, hr1, hc], List.mem_append_right _ hr2, ?_⟩
        rintro ⟨q, hq, hqv⟩
        rcases List.mem_append.mp hq with hq | hq
        · have h1 := hl3 ⟨q, hq, hqv⟩
          simp only [Point2D.compareDimension, compareDoubles_lt_one] at hc
          rcases hgap rr (List.mem_append_right _ hr2) with h | h
          · exact h
          · linarith
        · exact hr3 ⟨q, hq, hqv⟩
      · refine ⟨rl, by simp [findMax, hd, hl1, hr1, hc], List.mem_append_left _ hl2, ?_⟩
        rintro ⟨q, hq, hqv⟩
        rcases List.mem_append.mp hq with hq | hq
        · exact hl3 ⟨q, hq, hqv⟩
        · have h1 := hr3 ⟨q, hq, hqv⟩
          simp only [Point2D.compareDimension, compareDoubles_lt_one, not_le] at hc
          rcases hgap rl (List.mem_append_left _ hl2) with h | h
          · exact h
          · linarith

theorem findMin_minSeparated (a : Nat) (t : KDTree) (ht : t.Proper)
    (hpart : t.PartitionedOn a) (hsep : MinSeparated a t.storedPoints) :
    ∃ r, t.findMin a = .ok (some r) ∧ r ∈ t.storedPoints ∧
      ∀ q ∈ t.storedPoints, r.get a ≤ q.get a := by
  obtain ⟨p, hp, hmin⟩ := exists_min_on_axis a t.storedPoints (proper_storedPoints_ne_nil t ht)
  obtain ⟨r, h1, h2, h3⟩ := findMin_separated a (p.get a) t ht hpart (hsep p hp hmin)
  refine ⟨r, h1, h2, ?_⟩
  rw [h3 ⟨p, hp, rfl⟩]
  exact hmin

theorem findMax_maxSeparated (a : Nat) (t : KDTree) (ht : t.Proper)
    (hpart : t.PartitionedOn a) (hsep : MaxSeparated a t.storedPoints) :
    ∃ r, t.findMax a = .ok (some r) ∧ r ∈ t.storedPoints ∧
      ∀ q ∈ t.storedPoints, q.get a ≤ r.get a := by
  obtain ⟨p, hp, hmax⟩ := exists_max_on_axis a t.storedPoints (proper_storedPoints_ne_nil t ht)
  obtain ⟨r, h1, h2, h3⟩ := findMax_separated a (p.get a) t ht hpart (hsep p hp hmax)
  refine ⟨r, h1, h2, ?_⟩
  rw [h3 ⟨p, hp, rfl⟩]
  exact hmax

/-! ## Removal -/

theorem search_mem (t : KDTree) (p q : Point2D) :
    t.search p = .ok (some q) → q ∈ t.storedPoints ∧ q.equals p = true := by
  induction t with
  | empty => intro h; simp [search] at h
  | leaf pt =>
    intro h
    cases pt with
    | none => simp [search] at h
    | some x =>
      simp only [search] at h
      split_ifs at h with hx
      · simp only [Except.ok.injEq, Option.some.injEq] at h
        subst h
        exact ⟨by simp [storedPoints], hx⟩
      · simp at h
  | node d m l r ihl ihr =>
    intro h
    simp only [search] at h
    split_ifs at h with hgo
    · exact ⟨List.mem_append_left _ (ihl h).1, (ihl h).2⟩
    · exact ⟨List.mem_append_right _ (ihr h).1, (ihr h).2⟩

theorem search_countP_pos (t : KDTree) (p q : Point2D) (h : t.search p = .ok (some q)) :
    0 < t.storedPoints.countP (fun s => s.equals p) :=
  List.countP_pos_iff.mpr ⟨q, (search_mem t p q h).1, (search_mem t p q h).2⟩

theorem remove_search_absent (p : Point2D) (t : KDTree) :
    ∀ q : Point2D, t.Proper → t.search p = .ok (some q) →
      t.storedPoints.countP (fun s => s.equals p) = 1 →
      (∀ s, t.sibling p = some s → s.isLeaf = true) →
      ∃ t1, t.remove p = .ok t1 ∧ t1.search p = .ok none := by
  induction t with
  | empty => intro q ht; exact absurd ht (by simp [Proper])
  | leaf pt =>
    intro q ht hs _ _
    cases pt with
    | none => exact absurd ht (by simp [Proper])
    | some x =>
      have hx := (search_mem _ _ _ hs).1
      have hx2 := (search_mem _ _ _ hs).2
      simp only [storedPoints, List.mem_singleton] at hx
      subst hx
      exact ⟨empty, by simp [remove, hx2], rfl⟩
  | node d m l r ihl ihr =>
    intro q ht hs hcount hsib
    simp only [Proper] at ht
    simp only [storedPoints, List.countP_append] at hcount
    by_cases hgo : compareDoubles (p.get d) m < 1
    · simp only [search, hgo, if_true] at hs
      have hposl := search_countP_pos l p q hs
      cases l with
      | empty => exact absurd ht.1 (by simp [Proper])
      | leaf pt =>
        cases pt with
        | none => exact absurd ht.1 (by simp [Proper])
        | some x =>
          have hx2 := (search_mem _ _ _ hs).2
          have hx := (search_mem _ _ _ hs).1
          simp only [storedPoints, List.mem_singleton] at hx
          subst hx
          have hr := hsib r (by simp [sibling, hgo, isLeaf])
          cases r with
          | empty => exact absurd ht.2 (by simp [Proper])
          | node _ _ _ _ => simp [isLeaf] at hr
          | leaf pt2 =>
            cases pt2 with
            | none => exact absurd ht.2 (by simp [Proper])
            | some s =>
              have hs2 : s.equals p = false := by
                by_contra hne
                simp only [Bool.not_eq_false] at hne
                simp [storedPoints, hx2, hne] at hcount
              exact ⟨leaf (some s), by simp [remove, hgo, isLeaf, KDTree.point, hx2],
                by simp [search, hs2]⟩
      | node d2 m2 l2 r2 =>
        obtain ⟨l1, h1, h2⟩ := ihl q ht.1 hs (by omega)
          (fun s hs' => hsib s (by simpa [sibling, hgo, isLeaf] using hs'))
        refine ⟨node d m l1 r, ?_, by simp [search, hgo, h2]⟩
        rw [remove]
        simp only [hgo, if_true, isLeaf, Bool.false_eq_true, if_false, h1]
    · simp only [search, hgo, if_false] at hs
      have hposr := search_countP_pos r p q hs
      cases r with
      | empty => exact absurd ht.2 (by simp [Proper])
      | leaf pt =>
        cases pt with
        | none => exact absurd ht.2 (by simp [Proper])
        | some x =>
          have hx2 := (search_mem _ _ _ hs).2
          have hx := (search_mem _ _ _ hs).1
          simp only [storedPoints, List.mem_singleton] at hx
          subst hx
          have hl := hsib l (by simp [sibling, hgo, isLeaf])
          cases l with
          | empty => exact absurd ht.1 (by simp [Proper])
          | node _ _ _ _ => simp [isLeaf] at hl
          | leaf pt2 =>
            cases pt2 with
            | none => exact absurd ht.1 (by simp [Proper])
            | some s =>
              have hs2 : s.equals p = false := by
                by_contra hne
                simp only [Bool.not_eq_false] at hne
                simp [storedPoints, hx2, hne] at hcount
              exact ⟨leaf (some s), by simp [remove, hgo, isLeaf, KDTree.point, hx2],
                by simp [search, hs2]⟩
      | node d2 m2 l2 r2 =>
        obtain ⟨r1, h1, h2⟩ := ihr q ht.2 hs (by omega)
          (fun s hs' => hsib s (by simpa [sibling, hgo, isLeaf] using hs'))
        refine ⟨node d m l r1, ?_, by simp [search, hgo, h2]⟩
        rw [remove]
        simp only [hgo, if_true, isLeaf, Bool.false_eq_true, if_false, h1]

theorem reached_wellFormed {t : KDTree} (h : InsertGrown t ∨ Built t) :
    t = empty ∨ t.Proper := by
  rcases h with h | h
  · exact insertGrown_wellFormed h
  · exact Or.inr (built_spec h)

/-! ## The claims -/

/-- C1 (fails on the code): for the two points (1,1) and (1,2), which tie on the x axis,
every `nth_element` (any function that rearranges its range only) makes `buildKDtree`
return a tree in which `search` reports one of the two input points absent. -/
theorem C1_build_search_misses_tie (nthElement : NthElement)
    (hperm : NthElementPerm nthElement) (fuel : Nat) :
    ∃ (t : KDTree) (final : List Point2D),
      build nthElement (fuel + 2) [⟨1, 1⟩, ⟨1, 2⟩] = .ok (t, final) ∧
      ∃ p ∈ [(⟨1, 1⟩ : Point2D), ⟨1, 2⟩], t.search p = .ok none := by
  have h1 : Int.tdiv 1 2 = 0 := by decide
  have h3 : Int.toNat 2 = 2 := rfl
  rcases nthElement_pair hperm 0 ⟨1, 1⟩ ⟨1, 2⟩ with h2 | h2
  · refine ⟨node 0 1 (leaf (some ⟨1, 1⟩)) (leaf (some ⟨1, 2⟩)), [⟨1, 1⟩, ⟨1, 2⟩], ?_,
      ⟨1, 2⟩, by simp, ?_⟩
    · norm_num [build, toInt, buildKDtree, vectorAt, childDimension, h1, h3, h2,
        Point2D.get, INT_MIN, INT_MAX]
    · norm_num [search, Point2D.equals, Point2D.compareDimension, Point2D.get,
        compareDoubles, EPSILON]
  · refine ⟨node 0 1 (leaf (some ⟨1, 2⟩)) (leaf (some ⟨1, 1⟩)), [⟨1, 2⟩, ⟨1, 1⟩], ?_,
      ⟨1, 1⟩, by simp, ?_⟩
    · norm_num [build, toInt, buildKDtree, vectorAt, childDimension, h1, h3, h2,
        Point2D.get, INT_MIN, INT_MAX]
    · norm_num [search, Point2D.equals, Point2D.compareDimension, Point2D.get,
        compareDoubles, EPSILON]

/-- Instance of `C1_build_search_misses_tie` on a concrete input -/
theorem C1_build_search_misses_tie_witness :
    NthElementPerm sortRange ∧
    ∃ (t : KDTree) (final : List Point2D),
      build sortRange 2 [⟨1, 1⟩, ⟨1, 2⟩] = .ok (t, final) ∧
      ∃ p ∈ [(⟨1, 1⟩ : Point2D), ⟨1, 2⟩], t.search p = .ok none :=
  ⟨sortRange_perm, C1_build_search_misses_tie sortRange sortRange_perm 0⟩

/-- C2 (fails on the code): after inserting (2,2), (5,5), (9,1), `search` finds (2,2);
`remove((2,2))` deletes a leaf whose sibling is internal and leaves the root a leaf with
a null point: the two other points are no longer stored and the traversal reads the null
point. -/
theorem C2_remove_internal_sibling_loses_subtree :
    ∃ t : KDTree,
      KDTree.insertAll empty [⟨2, 2⟩, ⟨5, 5⟩, ⟨9, 1⟩] = .ok t ∧
      t.displayPoints = .ok [⟨2, 2⟩, ⟨9, 1⟩, ⟨5, 5⟩] ∧
      t.search ⟨2, 2⟩ = .ok (some ⟨2, 2⟩) ∧
      t.remove ⟨2, 2⟩ = .ok (leaf none) ∧
      (leaf none).storedPoints = [] ∧
      (leaf none).displayPoints = .error .nullPointer := by
  refine ⟨node 0 2 (leaf (some ⟨2, 2⟩)) (node 1 1 (leaf (some ⟨9, 1⟩)) (leaf (some ⟨5, 5⟩))),
    ?_, ?_, ?_, ?_, ?_, ?_⟩
  · norm_num [KDTree.insertAll, KDTree.insert, childDimension, Point2D.compareDimension,
      Point2D.get, compareDoubles, EPSILON]
  · simp [displayPoints, thenOutput]
  · norm_num [search, Point2D.equals, Point2D.compareDimension, Point2D.get,
      compareDoubles, EPSILON]
  · norm_num [remove, isLeaf, KDTree.point, Point2D.equals, Point2D.compareDimension,
      Point2D.get, compareDoubles, EPSILON]
  · rfl
  · rfl

/-- C3 (fails on the code): after inserting (1,1) and (1,2), both stored points lie
inside the rectangle with corners (0,0) and (1,3), yet the range query emits (1,2) only. -/
theorem C3_range_misses_tied_point :
    ∃ t : KDTree,
      KDTree.insertAll empty [⟨1, 1⟩, ⟨1, 2⟩] = .ok t ∧
      t.displayPoints = .ok [⟨1, 2⟩, ⟨1, 1⟩] ∧
      (⟨1, 1⟩ : Point2D).inside ⟨0, 0⟩ ⟨1, 3⟩ = true ∧
      (⟨1, 2⟩ : Point2D).inside ⟨0, 0⟩ ⟨1, 3⟩ = true ∧
      t.printRange ⟨0, 0⟩ ⟨1, 3⟩ none none none none = .ok [⟨1, 2⟩] := by
  refine ⟨node 0 1 (leaf (some ⟨1, 2⟩)) (leaf (some ⟨1, 1⟩)), ?_, ?_, ?_, ?_, ?_⟩
  · norm_num [KDTree.insertAll, KDTree.insert, childDimension, Point2D.compareDimension,
      Point2D.get, compareDoubles, EPSILON]
  · simp [displayPoints, thenOutput]
  · norm_num [Point2D.inside, Point2D.compareDimension, Point2D.get, compareDoubles, EPSILON]
  · norm_num [Point2D.inside, Point2D.compareDimension, Point2D.get, compareDoubles, EPSILON]
  · norm_num [printRange, subsumed, thenOutput, Point2D.inside, Point2D.compareDimension,
      Point2D.get, compareDoubles, EPSILON]

/-- C7 (fails on the code): inserting (1,1) and then (1,2) puts (1,1) in the right
subtree of a node with axis 0 and threshold 1, although its coordinate compares equal
to the threshold (not greater), and `search((1,1))` then reports it absent. -/
theorem C7_insert_tie_breaks_partition :
    KDTree.insertAll empty [⟨1, 1⟩, ⟨1, 2⟩]
        = .ok (node 0 1 (leaf (some ⟨1, 2⟩)) (leaf (some ⟨1, 1⟩))) ∧
      compareDoubles ((⟨1, 1⟩ : Point2D).get 0) 1 = 0 ∧
      (node 0 1 (leaf (some ⟨1, 2⟩)) (leaf (some ⟨1, 1⟩))).search ⟨1, 1⟩ = .ok none := by
  refine ⟨?_, ?_, ?_⟩
  · norm_num [KDTree.insertAll, KDTree.insert, childDimension, Point2D.compareDimension,
      Point2D.get, compareDoubles, EPSILON]
  · norm_num [Point2D.get, compareDoubles, EPSILON]
  · norm_num [search, Point2D.equals, Point2D.compareDimension, Point2D.get,
      compareDoubles, EPSILON]

/-- C8: the concrete scenario.  After inserting (2,2), (5,5), (9,1) into the Empty tree,
`findMin(0)` is (2,2), `findMax(1)` is (5,5) and the range query with corners (0,0) and
(6,6) emits (2,2) and (5,5); after `remove((5,5))`, `search((5,5))` is absent and the
stored points are (2,2) and (9,1). -/
theorem C8_scenario :
    ∃ t t1 : KDTree,
      KDTree.insertAll empty [⟨2, 2⟩, ⟨5, 5⟩, ⟨9, 1⟩] = .ok t ∧
      t.findMin 0 = .ok (some ⟨2, 2⟩) ∧
      t.findMax 1 = .ok (some ⟨5, 5⟩) ∧
      t.printRange ⟨0, 0⟩ ⟨6, 6⟩ none none none none = .ok [⟨2, 2⟩, ⟨5, 5⟩] ∧
      t.remove ⟨5, 5⟩ = .ok t1 ∧
      t1.search ⟨5, 5⟩ = .ok none ∧
      t1.displayPoints = .ok [⟨2, 2⟩, ⟨9, 1⟩] := by
  refine ⟨node 0 2 (leaf (some ⟨2, 2⟩)) (node 1 1 (leaf (some ⟨9, 1⟩)) (leaf (some ⟨5, 5⟩))),
    node 0 2 (leaf (some ⟨2, 2⟩)) (leaf (some ⟨9, 1⟩)), ?_, ?_, ?_, ?_, ?_, ?_, ?_⟩
  · norm_num [KDTree.insertAll, KDTree.insert, childDimension, Point2D.compareDimension,
      Point2D.get, compareDoubles, EPSILON]
  · simp [findMin]
  · norm_num [findMax, Point2D.compareDimension, Point2D.get, compareDoubles, EPSILON]
  · norm_num [printRange, subsumed, thenOutput, Point2D.inside, Point2D.compareDimension,
      Point2D.get, compareDoubles, EPSILON]
  · norm_num [remove, isLeaf, KDTree.point, Point2D.equals, Point2D.compareDimension,
      Point2D.get, compareDoubles, EPSILON]
  · norm_num [search, Point2D.equals, Point2D.compareDimension, Point2D.get,
      compareDoubles, EPSILON]
  · simp [displayPoints, thenOutput]

/-- C9 (fails on the code): on a vector of zero points the loader's call
`buildKDtree(points, 0, -1)` does not return an Empty tree: with every `nth_element`
(any function that rearranges its range only) it reads `points.at(0)` of the empty
vector and stops with the out-of-range fault. -/
theorem C9_build_empty_out_of_range (nthElement : NthElement)
    (hperm : NthElementPerm nthElement) (fuel : Nat) :
    build nthElement (fuel + 1) [] = .error .outOfRange := by
  have h1 : Int.tdiv 1 2 = 0 := by decide
  norm_num [build, toInt, buildKDtree, vectorAt, childDimension, h1, nthElement_nil hperm,
    INT_MIN, INT_MAX]

/-- Instance of `C9_build_empty_out_of_range` on a concrete input -/
theorem C9_build_empty_out_of_range_witness :
    NthElementPerm sortRange ∧ build sortRange 1 [] = .error .outOfRange :=
  ⟨sortRange_perm, C9_build_empty_out_of_range sortRange sortRange_perm 0⟩

/-- C4, counterexample: after inserting (0, 2ε), (10, ε), (10, 5), (20, 0), where ε is
`EPSILON`, `findMin(1)` returns (0, 2ε), whose y coordinate compares greater than the y
coordinate 0 of the stored point (20, 0). -/
theorem C4_findMin_tolerance_counterexample :
    ∃ t : KDTree,
      KDTree.insertAll empty
        [⟨0, 2 * EPSILON⟩, ⟨10, EPSILON⟩, ⟨10, 5⟩, ⟨20, 0⟩] = .ok t ∧
      t.displayPoints = .ok [⟨0, 2 * EPSILON⟩, ⟨10, EPSILON⟩, ⟨20, 0⟩, ⟨10, 5⟩] ∧
      t.findMin 1 = .ok (some ⟨0, 2 * EPSILON⟩) ∧
      compareDoubles ((⟨0, 2 * EPSILON⟩ : Point2D).get 1) ((⟨20, 0⟩ : Point2D).get 1) = 1 := by
  refine ⟨node 0 0 (leaf (some ⟨0, 2 * EPSILON⟩))
    (node 1 EPSILON (node 0 10 (leaf (some ⟨10, EPSILON⟩)) (leaf (some ⟨20, 0⟩)))
      (leaf (some ⟨10, 5⟩))), ?_, ?_, ?_, ?_⟩
  · norm_num [KDTree.insertAll, KDTree.insert, childDimension, Point2D.compareDimension,
      Point2D.get, compareDoubles, EPSILON]
  · simp [displayPoints, thenOutput]
  · norm_num [findMin, Point2D.compareDimension, Point2D.get, compareDoubles, EPSILON]
  · norm_num [Point2D.get, compareDoubles, EPSILON]

/-- C4, amended: for every non-empty tree reached from the Empty tree by inserts, and
for every tree returned by build (with an `nth_element` that meets its postcondition)
on whose stored points the tolerant comparison on the axis is a strict weak ordering
(any two coordinates within `EPSILON` or at least `2 * EPSILON` apart, being within
`EPSILON` transitive), which is the precondition of `nth_element`: if every stored
coordinate on the axis equals the minimum or exceeds it by at least `2 * EPSILON`,
`findMin(axis)` returns a stored point whose coordinate is the minimum over all stored
points; if every stored coordinate equals the maximum or is at least `2 * EPSILON`
below it, `findMax(axis)` returns a stored point whose coordinate is the maximum; also
when several stored points tie. -/
theorem C4_findMin_findMax_separated (t : KDTree) (axis : Nat) (hne : t ≠ empty)
    (hreach : InsertGrown t ∨ (BuiltOrdered t ∧ StrictWeakOnAxis axis t.storedPoints)) :
    t.displayPoints = .ok t.storedPoints ∧
    (MinSeparated axis t.storedPoints →
      ∃ pmin, t.findMin axis = .ok (some pmin) ∧ pmin ∈ t.storedPoints ∧
        ∀ q ∈ t.storedPoints, pmin.get axis ≤ q.get axis) ∧
    (MaxSeparated axis t.storedPoints →
      ∃ pmax, t.findMax axis = .ok (some pmax) ∧ pmax ∈ t.storedPoints ∧
        ∀ q ∈ t.storedPoints, q.get axis ≤ pmax.get axis) := by
  have h : t.Proper ∧ t.PartitionedOn axis := by
    rcases hreach with h | ⟨h, hsep⟩
    · rcases insertGrown_wellFormed h with h1 | h1
      · exact absurd h1 hne
      · exact ⟨h1, weaklyPartitioned_partitionedOn axis t (insertGrown_weaklyPartitioned h)⟩
    · exact builtOrdered_partitionedOn h axis hsep
  exact ⟨displayPoints_proper t h.1, findMin_minSeparated axis t h.1 h.2,
    findMax_maxSeparated axis t h.1 h.2⟩

/-- Instance of `C4_findMin_findMax_separated` on two concrete inputs, axis 1: the tree
after inserting (2,2), (5,5), (9,1), (3,1), where (9,1) and (3,1) tie for the minimum
and both extremes are found through nodes of both axes, and the tree that build returns
on (3,1), (1,2), (2,1) -/
theorem C4_findMin_findMax_separated_witness :
    ((node 0 2 (leaf (some ⟨2, 2⟩))
        (node 1 1 (node 0 3 (leaf (some ⟨3, 1⟩)) (leaf (some ⟨9, 1⟩))) (leaf (some ⟨5, 5⟩)))
          ≠ empty ∧
      KDTree.insertAll empty [⟨2, 2⟩, ⟨5, 5⟩, ⟨9, 1⟩, ⟨3, 1⟩]
        = .ok (node 0 2 (leaf (some ⟨2, 2⟩))
          (node 1 1 (node 0 3 (leaf (some ⟨3, 1⟩)) (leaf (some ⟨9, 1⟩)))
            (leaf (some ⟨5, 5⟩)))) ∧
      MinSeparated 1 [⟨2, 2⟩, ⟨3, 1⟩, ⟨9, 1⟩, ⟨5, 5⟩] ∧
      MaxSeparated 1 [⟨2, 2⟩, ⟨3, 1⟩, ⟨9, 1⟩, ⟨5, 5⟩]) ∧
      (node 0 2 (leaf (some ⟨2, 2⟩))
        (node 1 1 (node 0 3 (leaf (some ⟨3, 1⟩)) (leaf (some ⟨9, 1⟩)))
          (leaf (some ⟨5, 5⟩)))).findMin 1 = .ok (some ⟨3, 1⟩) ∧
      (node 0 2 (leaf (some ⟨2, 2⟩))
        (node 1 1 (node 0 3 (leaf (some ⟨3, 1⟩)) (leaf (some ⟨9, 1⟩)))
          (leaf (some ⟨5, 5⟩)))).findMax 1 = .ok (some ⟨5, 5⟩) ∧
      ∃ pmin pmax,
        (node 0 2 (leaf (some ⟨2, 2⟩))
          (node 1 1 (node 0 3 (leaf (some ⟨3, 1⟩)) (leaf (some ⟨9, 1⟩)))
            (leaf (some ⟨5, 5⟩)))).findMin 1 = .ok (some pmin) ∧
        (node 0 2 (leaf (some ⟨2, 2⟩))
          (node 1 1 (node 0 3 (leaf (some ⟨3, 1⟩)) (leaf (some ⟨9, 1⟩)))
            (leaf (some ⟨5, 5⟩)))).findMax 1 = .ok (some pmax) ∧
        (∀ q ∈ [(⟨2, 2⟩ : Point2D), ⟨3, 1⟩, ⟨9, 1⟩, ⟨5, 5⟩], pmin.get 1 ≤ q.get 1) ∧
        (∀ q ∈ [(⟨2, 2⟩ : Point2D), ⟨3, 1⟩, ⟨9, 1⟩, ⟨5, 5⟩], q.get 1 ≤ pmax.get 1)) ∧
    ((node 0 2 (node 1 1 (leaf (some ⟨2, 1⟩)) (leaf (some ⟨1, 2⟩))) (leaf (some ⟨3, 1⟩))
          ≠ empty ∧
      NthElementPost sortRange ∧
      build sortRange 3 [⟨3, 1⟩, ⟨1, 2⟩, ⟨2, 1⟩]
        = .ok (node 0 2 (node 1 1 (leaf (some ⟨2, 1⟩)) (leaf (some ⟨1, 2⟩)))
          (leaf (some ⟨3, 1⟩)), [⟨2, 1⟩, ⟨1, 2⟩, ⟨3, 1⟩]) ∧
      StrictWeakOnAxis 1 [⟨2, 1⟩, ⟨1, 2⟩, ⟨3, 1⟩] ∧
      MinSeparated 1 [⟨2, 1⟩, ⟨1, 2⟩, ⟨3, 1⟩] ∧
      MaxSeparated 1 [⟨2, 1⟩, ⟨1, 2⟩, ⟨3, 1⟩]) ∧
      ∃ pmin pmax,
        (node 0 2 (node 1 1 (leaf (some ⟨2, 1⟩)) (leaf (some ⟨1, 2⟩)))
          (leaf (some ⟨3, 1⟩))).findMin 1 = .ok (some pmin) ∧
        (node 0 2 (node 1 1 (leaf (some ⟨2, 1⟩)) (leaf (some ⟨1, 2⟩)))
          (leaf (some ⟨3, 1⟩))).findMax 1 = .ok (some pmax) ∧
        (∀ q ∈ [(⟨2, 1⟩ : Point2D), ⟨1, 2⟩, ⟨3, 1⟩], pmin.get 1 ≤ q.get 1) ∧
        (∀ q ∈ [(⟨2, 1⟩ : Point2D), ⟨1, 2⟩, ⟨3, 1⟩], q.get 1 ≤ pmax.get 1)) := by
  have h1 : Int.tdiv 1 2 = 0 := by decide
  have h2 : Int.tdiv 2 2 = 1 := by decide
  have h3 : Int.toNat 2 = 2 := rfl
  have h4 : Int.toNat 3 = 3 := rfl
  have hins : KDTree.insertAll empty [⟨2, 2⟩, ⟨5, 5⟩, ⟨9, 1⟩, ⟨3, 1⟩]
      = .ok (node 0 2 (leaf (some ⟨2, 2⟩))
        (node 1 1 (node 0 3 (leaf (some ⟨3, 1⟩)) (leaf (some ⟨9, 1⟩)))
          (leaf (some ⟨5, 5⟩)))) := by
    norm_num [KDTree.insertAll, KDTree.insert, childDimension, Point2D.compareDimension,
      Point2D.get, compareDoubles, EPSILON]
  have hmin1 : MinSeparated 1 [⟨2, 2⟩, ⟨3, 1⟩, ⟨9, 1⟩, ⟨5, 5⟩] := by
    norm_num [MinSeparated, Point2D.get, EPSILON]
  have hmax1 : MaxSeparated 1 [⟨2, 2⟩, ⟨3, 1⟩, ⟨9, 1⟩, ⟨5, 5⟩] := by
    norm_num [MaxSeparated, Point2D.get, EPSILON]
  have hbuild : build sortRange 3 [⟨3, 1⟩, ⟨1, 2⟩, ⟨2, 1⟩]
      = .ok (node 0 2 (node 1 1 (leaf (some ⟨2, 1⟩)) (leaf (some ⟨1, 2⟩)))
        (leaf (some ⟨3, 1⟩)), [⟨2, 1⟩, ⟨1, 2⟩, ⟨3, 1⟩]) := by
    norm_num [build, toInt, buildKDtree, vectorAt, childDimension, sortRange, INT_MIN, INT_MAX, h1,
      h2, h3, h4, List.insertionSort, List.orderedInsert, Point2D.get]
  have hsep2 : StrictWeakOnAxis 1 [⟨2, 1⟩, ⟨1, 2⟩, ⟨3, 1⟩] := by
    norm_num [StrictWeakOnAxis, Point2D.get, EPSILON, abs_le, le_abs]
  have hmin2 : MinSeparated 1 [⟨2, 1⟩, ⟨1, 2⟩, ⟨3, 1⟩] := by
    norm_num [MinSeparated, Point2D.get, EPSILON]
  have hmax2 : MaxSeparated 1 [⟨2, 1⟩, ⟨1, 2⟩, ⟨3, 1⟩] := by
    norm_num [MaxSeparated, Point2D.get, EPSILON]
  have hc1 := C4_findMin_findMax_separated
    (node 0 2 (leaf (some ⟨2, 2⟩))
      (node 1 1 (node 0 3 (leaf (some ⟨3, 1⟩)) (leaf (some ⟨9, 1⟩))) (leaf (some ⟨5, 5⟩))))
    1 (by simp) (Or.inl ⟨_, hins⟩)
  have hc2 := C4_findMin_findMax_separated
    (node 0 2 (node 1 1 (leaf (some ⟨2, 1⟩)) (leaf (some ⟨1, 2⟩))) (leaf (some ⟨3, 1⟩)))
    1 (by simp) (Or.inr ⟨⟨sortRange, 3, _, _, sortRange_post, hbuild⟩, hsep2⟩)
  obtain ⟨pmin1, hf1, -, hle1⟩ := hc1.2.1 hmin1
  obtain ⟨pmax1, hg1, -, hge1⟩ := hc1.2.2 hmax1
  obtain ⟨pmin2, hf2, -, hle2⟩ := hc2.2.1 hmin2
  obtain ⟨pmax2, hg2, -, hge2⟩ := hc2.2.2 hmax2
  refine ⟨⟨⟨by simp, hins, hmin1, hmax1⟩, ?_, ?_, pmin1, pmax1, hf1, hg1, hle1, hge1⟩,
    ⟨by simp, sortRange_post, hbuild, hsep2, hmin2, hmax2⟩, pmin2, pmax2, hf2, hg2, hle2, hge2⟩
  · norm_num [findMin, Point2D.compareDimension, Point2D.get, compareDoubles, EPSILON]
  · norm_num [findMax, Point2D.compareDimension, Point2D.get, compareDoubles, EPSILON]

/-- C5: for every tree reached from the Empty tree by inserts or returned by build and
every point p, `insert(p)` succeeds and `search(p)` on the result returns a point that
equals p under the tolerant equality. -/
theorem C5_search_after_insert (t : KDTree) (p : Point2D)
    (hreach : InsertGrown t ∨ Built t) :
    ∃ t1, t.insert p none = .ok t1 ∧
      ∃ q, t1.search p = .ok (some q) ∧ q.equals p = true := by
  obtain ⟨t1, h1, -, -⟩ := insert_wellFormed t p (reached_wellFormed hreach) none
  exact ⟨t1, h1, p, search_insert t p none t1 h1, Point2D.equals_self p⟩

/-- Instance of `C5_search_after_insert` on two concrete inputs: the tree after
inserting (2,2), (5,5), (9,1), into which (3,1) descends through two internal nodes
and splits a leaf, and the tree that build returns on (3,1), (1,2), (2,1), into which
(1,1) descends on two ties -/
theorem C5_search_after_insert_witness :
    (KDTree.insertAll empty [⟨2, 2⟩, ⟨5, 5⟩, ⟨9, 1⟩]
        = .ok (node 0 2 (leaf (some ⟨2, 2⟩))
          (node 1 1 (leaf (some ⟨9, 1⟩)) (leaf (some ⟨5, 5⟩)))) ∧
      (node 0 2 (leaf (some ⟨2, 2⟩))
          (node 1 1 (leaf (some ⟨9, 1⟩)) (leaf (some ⟨5, 5⟩)))).insert ⟨3, 1⟩ none
        = .ok (node 0 2 (leaf (some ⟨2, 2⟩))
          (node 1 1 (node 0 3 (leaf (some ⟨3, 1⟩)) (leaf (some ⟨9, 1⟩)))
            (leaf (some ⟨5, 5⟩)))) ∧
      ∃ t1, (node 0 2 (leaf (some ⟨2, 2⟩))
          (node 1 1 (leaf (some ⟨9, 1⟩)) (leaf (some ⟨5, 5⟩)))).insert ⟨3, 1⟩ none = .ok t1 ∧
        ∃ q, t1.search ⟨3, 1⟩ = .ok (some q) ∧ q.equals ⟨3, 1⟩ = true) ∧
    (NthElementPerm sortRange ∧
      build sortRange 3 [⟨3, 1⟩, ⟨1, 2⟩, ⟨2, 1⟩]
        = .ok (node 0 2 (node 1 1 (leaf (some ⟨2, 1⟩)) (leaf (some ⟨1, 2⟩)))
          (leaf (some ⟨3, 1⟩)), [⟨2, 1⟩, ⟨1, 2⟩, ⟨3, 1⟩]) ∧
      (node 0 2 (node 1 1 (leaf (some ⟨2, 1⟩)) (leaf (some ⟨1, 2⟩)))
          (leaf (some ⟨3, 1⟩))).insert ⟨1, 1⟩ none
        = .ok (node 0 2 (node 1 1 (node 0 1 (leaf (some ⟨1, 1⟩)) (leaf (some ⟨2, 1⟩)))
          (leaf (some ⟨1, 2⟩))) (leaf (some ⟨3, 1⟩))) ∧
      ∃ t1, (node 0 2 (node 1 1 (leaf (some ⟨2, 1⟩)) (leaf (some ⟨1, 2⟩)))
          (leaf (some ⟨3, 1⟩))).insert ⟨1, 1⟩ none = .ok t1 ∧
        ∃ q, t1.search ⟨1, 1⟩ = .ok (some q) ∧ q.equals ⟨1, 1⟩ = true) := by
  have h1 : Int.tdiv 1 2 = 0 := by decide
  have h2 : Int.tdiv 2 2 = 1 := by decide
  have h3 : Int.toNat 2 = 2 := rfl
  have h4 : Int.toNat 3 = 3 := rfl
  have hins : KDTree.insertAll empty [⟨2, 2⟩, ⟨5, 5⟩, ⟨9, 1⟩]
      = .ok (node 0 2 (leaf (some ⟨2, 2⟩))
        (node 1 1 (leaf (some ⟨9, 1⟩)) (leaf (some ⟨5, 5⟩)))) := by
    norm_num [KDTree.insertAll, KDTree.insert, childDimension, Point2D.compareDimension,
      Point2D.get, compareDoubles, EPSILON]
  have hbuild : build sortRange 3 [⟨3, 1⟩, ⟨1, 2⟩, ⟨2, 1⟩]
      = .ok (node 0 2 (node 1 1 (leaf (some ⟨2, 1⟩)) (leaf (some ⟨1, 2⟩)))
        (leaf (some ⟨3, 1⟩)), [⟨2, 1⟩, ⟨1, 2⟩, ⟨3, 1⟩]) := by
    norm_num [build, toInt, buildKDtree, vectorAt, childDimension, sortRange, INT_MIN, INT_MAX, h1,
      h2, h3, h4, List.insertionSort, List.orderedInsert, Point2D.get]
  refine ⟨⟨hins, ?_, C5_search_after_insert _ ⟨3, 1⟩ (Or.inl ⟨_, hins⟩)⟩,
    sortRange_perm, hbuild, ?_,
    C5_search_after_insert _ ⟨1, 1⟩ (Or.inr ⟨sortRange, 3, _, _, sortRange_perm, hbuild⟩)⟩
  · norm_num [KDTree.insert, childDimension, Point2D.compareDimension, Point2D.get,
      compareDoubles, EPSILON]
  · norm_num [KDTree.insert, childDimension, Point2D.compareDimension, Point2D.get,
      compareDoubles, EPSILON]

/-- C6, counterexample: after inserting (1,1) twice, `search((1,1))` finds the point,
and after `remove((1,1))` it still returns a point, the second copy. -/
theorem C6_duplicate_counterexample :
    ∃ t t1 : KDTree,
      KDTree.insertAll empty [⟨1, 1⟩, ⟨1, 1⟩] = .ok t ∧
      t.search ⟨1, 1⟩ = .ok (some ⟨1, 1⟩) ∧
      t.remove ⟨1, 1⟩ = .ok t1 ∧
      t1.search ⟨1, 1⟩ = .ok (some ⟨1, 1⟩) := by
  refine ⟨node 0 1 (leaf (some ⟨1, 1⟩)) (leaf (some ⟨1, 1⟩)), leaf (some ⟨1, 1⟩),
    ?_, ?_, ?_, ?_⟩
  · norm_num [KDTree.insertAll, KDTree.insert, childDimension, Point2D.compareDimension,
      Point2D.get, compareDoubles, EPSILON]
  · norm_num [search, Point2D.equals, Point2D.compareDimension, Point2D.get,
      compareDoubles, EPSILON]
  · norm_num [remove, isLeaf, KDTree.point, Point2D.equals, Point2D.compareDimension,
      Point2D.get, compareDoubles, EPSILON]
  · norm_num [search, Point2D.equals, Point2D.compareDimension, Point2D.get,
      compareDoubles, EPSILON]

/-- C6, amended: for every tree reached from the Empty tree by inserts and every point p
that `search` finds in it, if exactly one stored point equals p under the tolerant
equality and the sibling of the leaf that `remove` deletes is a leaf (or that leaf is the
root), then `remove(p)` succeeds and `search(p)` on the result returns absence. -/
theorem C6_search_after_remove_absent (t : KDTree) (p q : Point2D)
    (hgrown : InsertGrown t) (hfound : t.search p = .ok (some q))
    (hone : t.storedPoints.countP (fun s => s.equals p) = 1)
    (hsib : ∀ s, t.sibling p = some s → s.isLeaf = true) :
    ∃ t1, t.remove p = .ok t1 ∧ t1.search p = .ok none := by
  rcases insertGrown_wellFormed hgrown with h | h
  · subst h
    simp [search] at hfound
  · exact remove_search_absent p t q h hfound hone hsib

/-- Instance of `C6_search_after_remove_absent` on a concrete input -/
theorem C6_search_after_remove_absent_witness :
    (InsertGrown (node 0 2 (leaf (some ⟨2, 2⟩))
        (node 1 1 (leaf (some ⟨9, 1⟩)) (leaf (some ⟨5, 5⟩)))) ∧
      (node 0 2 (leaf (some ⟨2, 2⟩))
        (node 1 1 (leaf (some ⟨9, 1⟩)) (leaf (some ⟨5, 5⟩)))).search ⟨5, 5⟩
          = .ok (some ⟨5, 5⟩) ∧
      (node 0 2 (leaf (some ⟨2, 2⟩))
        (node 1 1 (leaf (some ⟨9, 1⟩)) (leaf (some ⟨5, 5⟩)))).storedPoints.countP
          (fun s => s.equals ⟨5, 5⟩) = 1 ∧
      ∀ s, (node 0 2 (leaf (some ⟨2, 2⟩))
        (node 1 1 (leaf (some ⟨9, 1⟩)) (leaf (some ⟨5, 5⟩)))).sibling ⟨5, 5⟩ = some s →
          s.isLeaf = true) ∧
    ∃ t1, (node 0 2 (leaf (some ⟨2, 2⟩))
        (node 1 1 (leaf (some ⟨9, 1⟩)) (leaf (some ⟨5, 5⟩)))).remove ⟨5, 5⟩ = .ok t1 ∧
      t1.search ⟨5, 5⟩ = .ok none := by
  have hg : InsertGrown (node 0 2 (leaf (some ⟨2, 2⟩))
      (node 1 1 (leaf (some ⟨9, 1⟩)) (leaf (some ⟨5, 5⟩)))) :=
    ⟨[⟨2, 2⟩, ⟨5, 5⟩, ⟨9, 1⟩], by
      norm_num [KDTree.insertAll, KDTree.insert, childDimension, Point2D.compareDimension,
        Point2D.get, compareDoubles, EPSILON]⟩
  have hf : (node 0 2 (leaf (some ⟨2, 2⟩))
      (node 1 1 (leaf (some ⟨9, 1⟩)) (leaf (some ⟨5, 5⟩)))).search ⟨5, 5⟩
        = .ok (some ⟨5, 5⟩) := by
    norm_num [search, Point2D.equals, Point2D.compareDimension, Point2D.get,
      compareDoubles, EPSILON]
  have hc : (node 0 2 (leaf (some ⟨2, 2⟩))
      (node 1 1 (leaf (some ⟨9, 1⟩)) (leaf (some ⟨5, 5⟩)))).storedPoints.countP
        (fun s => s.equals ⟨5, 5⟩) = 1 := by
    norm_num [storedPoints, List.countP_cons, Point2D.equals, Point2D.compareDimension,
      Point2D.get, compareDoubles, EPSILON]
  have hs : ∀ s, (node 0 2 (leaf (some ⟨2, 2⟩))
      (node 1 1 (leaf (some ⟨9, 1⟩)) (leaf (some ⟨5, 5⟩)))).sibling ⟨5, 5⟩ = some s →
        s.isLeaf = true := by
    intro s
    norm_num [sibling, isLeaf, Point2D.get, compareDoubles, EPSILON]
    rintro rfl
    rfl
  exact ⟨⟨hg, hf, hc, hs⟩, C6_search_after_remove_absent _ ⟨5, 5⟩ ⟨5, 5⟩ hg hf hc hs⟩

theorem search_total (p : Point2D) (t : KDTree) (ht : t.Proper) :
    ∃ r, t.search p = .ok r := by
  induction t with
  | empty => exact absurd ht (by simp [Proper])
  | leaf pt =>
    cases pt with
    | none => exact absurd ht (by simp [Proper])
    | some x =>
      simp only [search]
      split_ifs
      · exact ⟨_, rfl⟩
      · exact ⟨_, rfl⟩
  | node d m l r ihl ihr =>
    simp only [Proper] at ht
    simp only [search]
    split_ifs
    · exact ihl ht.1
    · exact ihr ht.2

theorem remove_absent (p : Point2D) (t : KDTree) :
    t.Proper → t.search p = .ok none → t.remove p = .ok t := by
  induction t with
  | empty => intro ht; exact absurd ht (by simp [Proper])
  | leaf pt =>
    intro ht hs
    cases pt with
    | none => exact absurd ht (by simp [Proper])
    | some x =>
      simp only [search] at hs
      split_ifs at hs with hx
      · simp at hs
      · simp [remove, hx]
  | node d m l r ihl ihr =>
    intro ht hs
    simp only [Proper] at ht
    by_cases hgo : compareDoubles (p.get d) m < 1
    · simp only [search, hgo, if_true] at hs
      cases l with
      | empty => exact absurd ht.1 (by simp [Proper])
      | leaf pt =>
        cases pt with
        | none => exact absurd ht.1 (by simp [Proper])
        | some x =>
          simp only [search] at hs
          split_ifs at hs with hx
          · simp at hs
          · simp [remove, hgo, isLeaf, KDTree.point, hx]
      | node d2 m2 l2 r2 =>
        have h1 := ihl ht.1 hs
        rw [remove]
        simp only [hgo, if_true, isLeaf, Bool.false_eq_true, if_false, h1]
    · simp only [search, hgo, if_false] at hs
      cases r with
      | empty => exact absurd ht.2 (by simp [Proper])
      | leaf pt =>
        cases pt with
        | none => exact absurd ht.2 (by simp [Proper])
        | some x =>
          simp only [search] at hs
          split_ifs at hs with hx
          · simp at hs
          · simp [remove, hgo, isLeaf, KDTree.point, hx]
      | node d2 m2 l2 r2 =>
        have h1 := ihr ht.2 hs
        rw [remove]
        simp only [hgo, if_true, isLeaf, Bool.false_eq_true, if_false, h1]

theorem remove_found_changes (p : Point2D) (t : KDTree) :
    t.Proper → ∀ q, t.search p = .ok (some q) → ∃ t1, t.remove p = .ok t1 ∧ t1 ≠ t := by
  induction t with
  | empty => intro ht; exact absurd ht (by simp [Proper])
  | leaf pt =>
    intro ht q hs
    cases pt with
    | none => exact absurd ht (by simp [Proper])
    | some x =>
      have hx := (search_mem _ _ _ hs).2
      have hq := (search_mem _ _ _ hs).1
      simp only [storedPoints, List.mem_singleton] at hq
      subst hq
      exact ⟨empty, by simp [remove, hx], by simp⟩
  | node d m l r ihl ihr =>
    intro ht q hs
    simp only [Proper] at ht
    by_cases hgo : compareDoubles (p.get d) m < 1
    · simp only [search, hgo, if_true] at hs
      cases l with
      | empty => exact absurd ht.1 (by simp [Proper])
      | leaf pt =>
        cases pt with
        | none => exact absurd ht.1 (by simp [Proper])
        | some x =>
          have hx := (search_mem _ _ _ hs).2
          have hq := (search_mem _ _ _ hs).1
          simp only [storedPoints, List.mem_singleton] at hq
          subst hq
          exact ⟨leaf r.point, by simp [remove, hgo, isLeaf, KDTree.point, hx], by simp⟩
      | node d2 m2 l2 r2 =>
        obtain ⟨l1, h1, h2⟩ := ihl ht.1 q hs
        refine ⟨node d m l1 r, ?_, by simpa using h2⟩
        rw [remove]
        simp only [hgo, if_true, isLeaf, Bool.false_eq_true, if_false, h1]
    · simp only [search, hgo, if_false] at hs
      cases r with
      | empty => exact absurd ht.2 (by simp [Proper])
      | leaf pt =>
        cases pt with
        | none => exact absurd ht.2 (by simp [Proper])
        | some x =>
          have hx := (search_mem _ _ _ hs).2
          have hq := (search_mem _ _ _ hs).1
          simp only [storedPoints, List.mem_singleton] at hq
          subst hq
          exact ⟨leaf l.point, by simp [remove, hgo, isLeaf, KDTree.point, hx], by simp⟩
      | node d2 m2 l2 r2 =>
        obtain ⟨r1, h1, h2⟩ := ihr ht.2 q hs
        refine ⟨node d m l r1, ?_, by simpa using h2⟩
        rw [remove]
        simp only [hgo, if_true, isLeaf, Bool.false_eq_true, if_false, h1]

/-- C11: on a tree in which each leaf holds a point and each internal node has both
children (or the Empty tree), `search(p)` returns absence or a point; when it returns
absence `remove(p)` leaves the tree unchanged, and when it returns a point `remove(p)`
returns a different tree. -/
theorem C11_remove_noop_iff_absent (t : KDTree) (p : Point2D)
    (hwf : t = empty ∨ t.Proper) :
    (∃ r, t.search p = .ok r) ∧
    (t.search p = .ok none → t.remove p = .ok t) ∧
    (∀ q, t.search p = .ok (some q) → ∃ t1, t.remove p = .ok t1 ∧ t1 ≠ t) := by
  rcases hwf with rfl | ht
  · exact ⟨⟨none, rfl⟩, fun _ => rfl, fun q hq => by simp [search] at hq⟩
  · exact ⟨search_total p t ht, remove_absent p t ht, remove_found_changes p t ht⟩

/-- Instance of `C11_remove_noop_iff_absent` on a concrete input -/
theorem C11_remove_noop_iff_absent_witness :
    (node 0 2 (leaf (some ⟨2, 2⟩)) (leaf (some ⟨9, 1⟩)) = empty ∨
      (node 0 2 (leaf (some ⟨2, 2⟩)) (leaf (some ⟨9, 1⟩))).Proper) ∧
    ((∃ r, (node 0 2 (leaf (some ⟨2, 2⟩)) (leaf (some ⟨9, 1⟩))).search ⟨5, 5⟩ = .ok r) ∧
    ((node 0 2 (leaf (some ⟨2, 2⟩)) (leaf (some ⟨9, 1⟩))).search ⟨5, 5⟩ = .ok none →
      (node 0 2 (leaf (some ⟨2, 2⟩)) (leaf (some ⟨9, 1⟩))).remove ⟨5, 5⟩
        = .ok (node 0 2 (leaf (some ⟨2, 2⟩)) (leaf (some ⟨9, 1⟩)))) ∧
    (∀ q, (node 0 2 (leaf (some ⟨2, 2⟩)) (leaf (some ⟨9, 1⟩))).search ⟨5, 5⟩
        = .ok (some q) →
      ∃ t1, (node 0 2 (leaf (some ⟨2, 2⟩)) (leaf (some ⟨9, 1⟩))).remove ⟨5, 5⟩ = .ok t1 ∧
        t1 ≠ node 0 2 (leaf (some ⟨2, 2⟩)) (leaf (some ⟨9, 1⟩)))) :=
  ⟨Or.inr (by simp [Proper]),
    C11_remove_noop_iff_absent _ ⟨5, 5⟩ (Or.inr (by simp [Proper]))⟩

theorem compareDoubles_eq_neg_one {a b : ℚ} :
    compareDoubles a b = -1 ↔ a - b < -EPSILON := by
  have h := EPSILON_pos
  unfold compareDoubles
  split_ifs with h1 h2
  · simp [h1]
  · simp [h1]
  · simp [h1]

theorem compareDoubles_eq_one {a b : ℚ} :
    compareDoubles a b = 1 ↔ a - b > EPSILON := by
  have h := EPSILON_pos
  unfold compareDoubles
  split_ifs with h1 h2
  · simp; linarith
  · simp [h2]
  · simp [h2]

theorem compareDoubles_antisymm (a b : ℚ) : compareDoubles a b = -compareDoubles b a := by
  have h := EPSILON_pos
  unfold compareDoubles
  split_ifs <;> first | rfl | (exfalso; linarith)

/-- C12: with exact coordinates and epsilon = 2^-52, `compareDoubles(a, b)` is 0 exactly
when |a - b| <= epsilon, -1 exactly when a - b < -epsilon and 1 exactly when
a - b > epsilon, so `compareDoubles(a, b) = -compareDoubles(b, a)`; coordinates that
differ by less than epsilon compare equal, coordinates that differ by 1e-9 compare
unequal, and `equals(p, q)` holds exactly when both axes compare equal. -/
theorem C12_compareDoubles_exact (a b : ℚ) (p q : Point2D) :
    EPSILON = 1 / 2 ^ 52 ∧
    (compareDoubles a b = 0 ↔ |a - b| ≤ EPSILON) ∧
    (compareDoubles a b = -1 ↔ a - b < -EPSILON) ∧
    (compareDoubles a b = 1 ↔ a - b > EPSILON) ∧
    compareDoubles a b = -compareDoubles b a ∧
    (|a - b| < EPSILON → compareDoubles a b = 0) ∧
    (|a - b| = 1 / 10 ^ 9 → compareDoubles a b ≠ 0) ∧
    (p.equals q = true ↔ p.compareDimension q 0 = 0 ∧ p.compareDimension q 1 = 0) := by
  have h0 : compareDoubles a b = 0 ↔ |a - b| ≤ EPSILON := by
    rw [compareDoubles_eq_zero, abs_le]
  refine ⟨rfl, h0, compareDoubles_eq_neg_one, compareDoubles_eq_one,
    compareDoubles_antisymm a b, fun h => h0.mpr (le_of_lt h), ?_, ?_⟩
  · intro h hc
    rw [h0, h] at hc
    norm_num [EPSILON] at hc
  · simp [Point2D.equals]

/-- Instance of `C12_compareDoubles_exact` on concrete coordinates: 1 and 1 + epsilon/2
compare equal, 1 and 1 + 1e-9 do not -/
theorem C12_compareDoubles_exact_witness :
    compareDoubles 1 (1 + EPSILON / 2) = 0 ∧ compareDoubles 1 (1 + 1 / 10 ^ 9) ≠ 0 :=
  ⟨(C12_compareDoubles_exact 1 (1 + EPSILON / 2) ⟨0, 0⟩ ⟨0, 0⟩).2.2.2.2.2.1
      (by norm_num [EPSILON, abs_of_neg]),
    (C12_compareDoubles_exact 1 (1 + 1 / 10 ^ 9) ⟨0, 0⟩ ⟨0, 0⟩).2.2.2.2.2.2.1
      (by norm_num [abs_of_neg])⟩

/-- C13: on the Empty tree `search` returns absence, `findMin` and `findMax` return no
point, the range query (with any bounds) and the traversal emit nothing and `remove`
leaves the tree Empty; none of them faults. -/
theorem C13_empty_tree (p lowerLeft upperRight : Point2D) (axis : Nat)
    (leftBound rightBound lowerBound upperBound : Option ℚ) :
    empty.search p = .ok none ∧
    empty.findMin axis = .ok none ∧
    empty.findMax axis = .ok none ∧
    empty.printRange lowerLeft upperRight leftBound rightBound lowerBound upperBound
      = .ok [] ∧
    empty.displayPoints = .ok [] ∧
    empty.remove p = .ok empty := by
  refine ⟨rfl, rfl, rfl, ?_, rfl, rfl⟩
  simp [printRange, displayPoints]

theorem compareDoubles_lt_one_iff_ne_one (a b : ℚ) :
    compareDoubles a b < 1 ↔ ¬ compareDoubles a b = 1 := by
  rw [compareDoubles_lt_one, compareDoubles_eq_one]
  exact not_lt.symm

/-- C16: at an internal node whose axis is the target axis `findMin` is the left child's
result and `findMax` the right child's result, whatever the other child is; at an
internal node with another axis, when both children return a point, `findMin` returns
the left result unless it compares strictly greater than the right result (ties favour
left) and `findMax` returns the left result only when it compares strictly greater
(ties favour right). -/
theorem C16_findMin_findMax_combination (dimension : Nat) (median : ℚ)
    (left right : KDTree) (axis : Nat) :
    (dimension = axis →
      (node dimension median left right).findMin axis = left.findMin axis ∧
      (node dimension median left right).findMax axis = right.findMax axis) ∧
    (dimension ≠ axis → ∀ leftMin rightMin,
      left.findMin axis = .ok (some leftMin) → right.findMin axis = .ok (some rightMin) →
      (node dimension median left right).findMin axis
        = .ok (some (if leftMin.compareDimension rightMin axis = 1 then rightMin
            else leftMin))) ∧
    (dimension ≠ axis → ∀ leftMax rightMax,
      left.findMax axis = .ok (some leftMax) → right.findMax axis = .ok (some rightMax) →
      (node dimension median left right).findMax axis
        = .ok (some (if leftMax.compareDimension rightMax axis = 1 then leftMax
            else rightMax))) := by
  refine ⟨?_, ?_, ?_⟩
  · intro h
    simp [findMin, findMax, h]
  · intro h leftMin rightMin hl hr
    simp only [findMin, h, if_false, hl, hr, Point2D.compareDimension,
      compareDoubles_lt_one_iff_ne_one]
    split_ifs <;> simp_all
  · intro h leftMax rightMax hl hr
    simp only [findMax, h, if_false, hl, hr, Point2D.compareDimension,
      compareDoubles_lt_one_iff_ne_one]
    split_ifs <;> simp_all

/-- Instance of `C16_findMin_findMax_combination` on a concrete node: on a tie the
minimum is the left result and the maximum the right result -/
theorem C16_findMin_findMax_combination_witness :
    (node 0 1 (leaf (some ⟨1, 3⟩)) (leaf (some ⟨2, 3⟩))).findMin 1 = .ok (some ⟨1, 3⟩) ∧
    (node 0 1 (leaf (some ⟨1, 3⟩)) (leaf (some ⟨2, 3⟩))).findMax 1 = .ok (some ⟨2, 3⟩) := by
  have h := C16_findMin_findMax_combination 0 1 (leaf (some ⟨1, 3⟩)) (leaf (some ⟨2, 3⟩)) 1
  have h1 := h.2.1 (by decide) ⟨1, 3⟩ ⟨2, 3⟩ rfl rfl
  have h2 := h.2.2 (by decide) ⟨1, 3⟩ ⟨2, 3⟩ rfl rfl
  have hc : ¬ Point2D.compareDimension ⟨1, 3⟩ ⟨2, 3⟩ 1 = 1 := by
    norm_num [Point2D.compareDimension, Point2D.get, compareDoubles, EPSILON]
  rw [if_neg hc] at h1 h2
  exact ⟨h1, h2⟩

/-! ## Insertion: round trip with removal, and the stored sequence -/

theorem insert_storedPoints (p : Point2D) (t : KDTree) (ht : t.Proper) :
    ∀ parent : Option Nat, ∃ t1 pre post, t.insert p parent = .ok t1 ∧
      t.storedPoints = pre ++ post ∧ t1.storedPoints = pre ++ p :: post := by
  induction t with
  | empty => exact absurd ht (by simp [Proper])
  | leaf pt =>
    intro parent
    cases pt with
    | none => exact absurd ht (by simp [Proper])
    | some q =>
      simp only [KDTree.insert]
      split_ifs
      · exact ⟨_, [q], [], rfl, by simp [storedPoints], by simp [storedPoints]⟩
      · exact ⟨_, [], [q], rfl, by simp [storedPoints], by simp [storedPoints]⟩
  | node d m l r ihl ihr =>
    intro parent
    simp only [Proper] at ht
    simp only [KDTree.insert]
    split_ifs
    · obtain ⟨l1, pre, post, h1, h2, h3⟩ := ihl ht.1 (some d)
      exact ⟨node d m l1 r, pre, post ++ r.storedPoints, by simp [h1],
        by simp [storedPoints, h2], by simp [storedPoints, h3]⟩
    · obtain ⟨r1, pre, post, h1, h2, h3⟩ := ihr ht.2 (some d)
      exact ⟨node d m l r1, l.storedPoints ++ pre, post, by simp [h1],
        by simp [storedPoints, h2], by simp [storedPoints, h3]⟩

theorem insert_remove (p : Point2D) (t : KDTree) (ht : t.Proper) :
    ∀ parent : Option Nat, ∃ t1, t.insert p parent = .ok t1 ∧ t1.isLeaf = false ∧
      t1.remove p = .ok t ∧ ∃ q, t1.sibling p = some (leaf (some q)) := by
  induction t with
  | empty => exact absurd ht (by simp [Proper])
  | leaf pt =>
    intro parent
    cases pt with
    | none => exact absurd ht (by simp [Proper])
    | some q =>
      have hε := EPSILON_pos
      simp only [KDTree.insert]
      split_ifs with hlt
      · have hlt' := compareDoubles_lt_zero.mp hlt
        have hmin : min (p.get (childDimension parent)) (q.get (childDimension parent))
            = q.get (childDimension parent) := min_eq_right (by linarith)
        have hgo : ¬ compareDoubles (p.get (childDimension parent))
            (q.get (childDimension parent)) < 1 := by
          rw [compareDoubles_lt_one]; linarith
        refine ⟨_, rfl, rfl, ?_, q, ?_⟩
        · simp [remove, hmin, hgo, isLeaf, KDTree.point, Point2D.equals_self]
        · simp [sibling, hmin, hgo, isLeaf]
      · have hlt' : ¬ _ := fun hh => hlt (compareDoubles_lt_zero.mpr hh)
        have hgo : compareDoubles (p.get (childDimension parent))
            (min (p.get (childDimension parent)) (q.get (childDimension parent))) < 1 := by
          rw [compareDoubles_lt_one]
          rcases min_cases (p.get (childDimension parent)) (q.get (childDimension parent))
            with ⟨h1, _⟩ | ⟨h1, _⟩ <;> rw [h1] <;> linarith
        refine ⟨_, rfl, rfl, ?_, q, ?_⟩
        · simp [remove, hgo, isLeaf, KDTree.point, Point2D.equals_self]
        · simp [sibling, hgo, isLeaf]
  | node d m l r ihl ihr =>
    intro parent
    simp only [Proper] at ht
    simp only [KDTree.insert]
    split_ifs with hgo
    · obtain ⟨l1, h1, h2, h3, q, h4⟩ := ihl ht.1 (some d)
      refine ⟨node d m l1 r, by simp [h1], rfl, ?_, q, ?_⟩
      · simp [remove, hgo, h2, h3]
      · simp [sibling, hgo, h2, h4]
    · obtain ⟨r1, h1, h2, h3, q, h4⟩ := ihr ht.2 (some d)
      refine ⟨node d m l r1, by simp [h1], rfl, ?_, q, ?_⟩
      · simp [remove, hgo, h2, h3]
      · simp [sibling, hgo, h2, h4]

/-- C18: for every tree in which each leaf holds a point and each internal node has both
children (or the Empty tree) and every point p, `insert(p)` succeeds and `remove(p)` on
the result returns the original tree; `search(p)` in between finds p, and the sibling of
the leaf that `remove` deletes is a leaf holding a point (on the Empty tree the inserted
leaf is the root). -/
theorem C18_insert_remove_round_trip (t : KDTree) (p : Point2D)
    (hwf : t = empty ∨ t.Proper) :
    ∃ t1, t.insert p none = .ok t1 ∧ t1.search p = .ok (some p) ∧ t1.remove p = .ok t ∧
      (t = empty → t1 = leaf (some p)) ∧
      (t.Proper → ∃ q, t1.sibling p = some (leaf (some q))) := by
  rcases hwf with rfl | ht
  · exact ⟨leaf (some p), rfl, by simp [search, Point2D.equals_self],
      by simp [remove, Point2D.equals_self], fun _ => rfl, fun h => absurd h (by simp [Proper])⟩
  · obtain ⟨t1, h1, -, h3, h4⟩ := insert_remove p t ht none
    refine ⟨t1, h1, search_insert t p none t1 h1, h3, ?_, fun _ => h4⟩
    rintro rfl
    exact absurd ht (by simp [Proper])

/-- Instance of `C18_insert_remove_round_trip` on a concrete input -/
theorem C18_insert_remove_round_trip_witness :
    (node 0 2 (leaf (some ⟨2, 2⟩)) (leaf (some ⟨9, 1⟩)) = empty ∨
      (node 0 2 (leaf (some ⟨2, 2⟩)) (leaf (some ⟨9, 1⟩))).Proper) ∧
    ∃ t1, (node 0 2 (leaf (some ⟨2, 2⟩)) (leaf (some ⟨9, 1⟩))).insert ⟨2, 2⟩ none = .ok t1 ∧
      t1.search ⟨2, 2⟩ = .ok (some ⟨2, 2⟩) ∧
      t1.remove ⟨2, 2⟩ = .ok (node 0 2 (leaf (some ⟨2, 2⟩)) (leaf (some ⟨9, 1⟩))) ∧
      (node 0 2 (leaf (some ⟨2, 2⟩)) (leaf (some ⟨9, 1⟩)) = empty → t1 = leaf (some ⟨2, 2⟩)) ∧
      ((node 0 2 (leaf (some ⟨2, 2⟩)) (leaf (some ⟨9, 1⟩))).Proper →
        ∃ q, t1.sibling ⟨2, 2⟩ = some (leaf (some q))) :=
  ⟨Or.inr (by simp [Proper]),
    C18_insert_remove_round_trip _ ⟨2, 2⟩ (Or.inr (by simp [Proper]))⟩

/-- C20: for every tree in which each leaf holds a point and each internal node has both
children (or the Empty tree) and every point p, `insert(p)` succeeds and the left-to-right
sequence of stored points afterwards is the sequence before with p inserted at one
position: every other point is kept, in the same order, and the count grows by exactly
one, also when p equals a stored point. -/
theorem C20_insert_adds_one_point (t : KDTree) (p : Point2D)
    (hwf : t = empty ∨ t.Proper) :
    ∃ t1 before after, t.insert p none = .ok t1 ∧
      t.displayPoints = .ok (before ++ after) ∧
      t1.displayPoints = .ok (before ++ p :: after) ∧
      (before ++ p :: after).length = (before ++ after).length + 1 := by
  rcases hwf with rfl | ht
  · exact ⟨leaf (some p), [], [], rfl, rfl, rfl, rfl⟩
  · obtain ⟨t1, pre, post, h1, h2, h3⟩ := insert_storedPoints p t ht none
    obtain ⟨t2, h4, h5, -⟩ := insert_proper t p ht none
    rw [h1] at h4
    cases h4
    refine ⟨t1, pre, post, h1, ?_, ?_, by simp only [List.length_append, List.length_cons]; omega⟩
    · rw [displayPoints_proper t ht, h2]
    · rw [displayPoints_proper t1 h5, h3]

/-- Instance of `C20_insert_adds_one_point` on a concrete input, where the inserted
point equals a stored point -/
theorem C20_insert_adds_one_point_witness :
    (node 0 2 (leaf (some ⟨2, 2⟩)) (leaf (some ⟨9, 1⟩)) = empty ∨
      (node 0 2 (leaf (some ⟨2, 2⟩)) (leaf (some ⟨9, 1⟩))).Proper) ∧
    ∃ t1 before after,
      (node 0 2 (leaf (some ⟨2, 2⟩)) (leaf (some ⟨9, 1⟩))).insert ⟨2, 2⟩ none = .ok t1 ∧
      (node 0 2 (leaf (some ⟨2, 2⟩)) (leaf (some ⟨9, 1⟩))).displayPoints
        = .ok (before ++ after) ∧
      t1.displayPoints = .ok (before ++ (⟨2, 2⟩ : Point2D) :: after) ∧
      (before ++ (⟨2, 2⟩ : Point2D) :: after).length = (before ++ after).length + 1 :=
  ⟨Or.inr (by simp [Proper]),
    C20_insert_adds_one_point _ ⟨2, 2⟩ (Or.inr (by simp [Proper]))⟩

/-! ## Shape of built and of insert-grown trees -/

theorem insert_axisAlternates (p : Point2D) (t : KDTree) :
    ∀ (parent : Option Nat) (t1 : KDTree), t.AxisAlternates parent →
      t.insert p parent = .ok t1 → t1.AxisAlternates parent := by
  induction t with
  | empty =>
    intro parent t1 _ h
    simp only [KDTree.insert, Except.ok.injEq] at h
    subst h
    simp [AxisAlternates]
  | leaf pt =>
    intro parent t1 _ h
    cases pt with
    | none => simp [KDTree.insert] at h
    | some q =>
      simp only [KDTree.insert] at h
      split_ifs at h <;>
      · simp only [Except.ok.injEq] at h
        subst h
        simp [AxisAlternates]
  | node d m l r ihl ihr =>
    intro parent t1 ha h
    simp only [AxisAlternates] at ha
    simp only [KDTree.insert] at h
    split_ifs at h with hgo
    · cases hl : l.insert p (some d) with
      | error e => simp [hl] at h
      | ok l1 =>
        simp only [hl, Except.ok.injEq] at h
        subst h
        exact ⟨ha.1, ihl _ _ ha.2.1 hl, ha.2.2⟩
    · cases hr : r.insert p (some d) with
      | error e => simp [hr] at h
      | ok r1 =>
        simp only [hr, Except.ok.injEq] at h
        subst h
        exact ⟨ha.1, ha.2.1, ihr _ _ ha.2.2 hr⟩

theorem remove_axisAlternates (p : Point2D) (t : KDTree) :
    ∀ (parent : Option Nat) (t1 : KDTree), t.AxisAlternates parent →
      t.remove p = .ok t1 → t1.AxisAlternates parent := by
  induction t with
  | empty =>
    intro parent t1 _ h
    simp only [remove, Except.ok.injEq] at h
    subst h
    simp [AxisAlternates]
  | leaf pt =>
    intro parent t1 _ h
    cases pt with
    | none => simp [remove] at h
    | some q =>
      simp only [remove] at h
      split_ifs at h <;>
      · simp only [Except.ok.injEq] at h
        subst h
        simp [AxisAlternates]
  | node d m l r ihl ihr =>
    intro parent t1 ha h
    simp only [AxisAlternates] at ha
    rw [remove] at h
    split_ifs at h with hgo hleaf hleaf
    · revert h
      cases l.point with
      | none => simp
      | some x =>
        simp only
        split_ifs
        · simp only [Except.ok.injEq]
          rintro rfl
          simp [AxisAlternates]
        · simp only [Except.ok.injEq]
          rintro rfl
          exact ha
    · revert h
      cases hl : l.remove p with
      | error e => simp
      | ok l1 =>
        simp only [Except.ok.injEq]
        rintro rfl
        exact ⟨ha.1, ihl _ _ ha.2.1 hl, ha.2.2⟩
    · revert h
      cases r.point with
      | none => simp
      | some x =>
        simp only
        split_ifs
        · simp only [Except.ok.injEq]
          rintro rfl
          simp [AxisAlternates]
        · simp only [Except.ok.injEq]
          rintro rfl
          exact ha
    · revert h
      cases hr : r.remove p with
      | error e => simp
      | ok r1 =>
        simp only [Except.ok.injEq]
        rintro rfl
        exact ⟨ha.1, ha.2.1, ihr _ _ ha.2.2 hr⟩

theorem run_axisAlternates (calls : List Command) :
    ∀ t t1 : KDTree, t.AxisAlternates none → t.run calls = .ok t1 →
      t1.AxisAlternates none := by
  induction calls with
  | nil =>
    intro t t1 ha h
    simp only [KDTree.run, Except.ok.injEq] at h
    subst h
    exact ha
  | cons c cs ih =>
    intro t t1 ha h
    simp only [KDTree.run] at h
    cases hc : t.execute c with
    | error e => simp [hc] at h
    | ok t2 =>
      simp only [hc] at h
      refine ih t2 t1 ?_ h
      cases c with
      | insert q => exact insert_axisAlternates q t none t2 ha hc
      | remove q => exact remove_axisAlternates q t none t2 ha hc

theorem built_axisAlternates {t : KDTree} (h : Built t) : t.AxisAlternates none := by
  obtain ⟨nthElement, fuel, points, final, -, hb⟩ := h
  have h0 := (build_end_range hb).1
  exact (buildKDtree_shape nthElement fuel points 0 _ none t final hb (le_refl _) h0).2.2.2

theorem axisAtDepth_of_alternates (t : KDTree) :
    ∀ (parent : Option Nat) (depth : Nat), t.AxisAlternates parent →
      childDimension parent = depth % 2 → t.AxisAtDepth depth := by
  induction t with
  | empty => intro _ _ _ _; simp [AxisAtDepth]
  | leaf pt => intro _ _ _ _; simp [AxisAtDepth]
  | node d m l r ihl ihr =>
    intro parent depth ha hd
    simp only [AxisAlternates] at ha
    have hd1 : d = depth % 2 := ha.1.trans hd
    have hchild : childDimension (some d) = (depth + 1) % 2 := by
      simp only [childDimension, hd1]
      omega
    exact ⟨hd1, ihl _ _ ha.2.1 hchild, ihr _ _ ha.2.2 hchild⟩


/-- C19: in every tree returned by build, or reached from such a tree or from the Empty
tree by any sequence of insert and remove calls, the root, if internal, has axis 0 and
every other internal node has axis (its parent's axis + 1) mod 2; equivalently an
internal node at depth k has axis k mod 2. -/
theorem C19_axis_alternation (t : KDTree) (h : Reachable t) :
    t.AxisAlternates none ∧ t.AxisAtDepth 0 := by
  obtain ⟨start, calls, hstart, hrun⟩ := h
  have h0 : start.AxisAlternates none := by
    rcases hstart with rfl | hb
    · simp [AxisAlternates]
    · exact built_axisAlternates hb
  have h1 := run_axisAlternates calls start t h0 hrun
  exact ⟨h1, axisAtDepth_of_alternates t none 0 h1 rfl⟩

/-- Instance of `C19_axis_alternation` on two concrete inputs: the tree reached from
the Empty tree by three inserts and one remove, and the tree reached by one insert from
the tree that build returns on (3,1), (1,2), (2,1) -/
theorem C19_axis_alternation_witness :
    (Reachable (node 0 2 (leaf (some ⟨2, 2⟩)) (leaf (some ⟨9, 1⟩))) ∧
      (node 0 2 (leaf (some ⟨2, 2⟩)) (leaf (some ⟨9, 1⟩))).AxisAlternates none ∧
      (node 0 2 (leaf (some ⟨2, 2⟩)) (leaf (some ⟨9, 1⟩))).AxisAtDepth 0) ∧
    (build sortRange 3 [⟨3, 1⟩, ⟨1, 2⟩, ⟨2, 1⟩]
        = .ok (node 0 2 (node 1 1 (leaf (some ⟨2, 1⟩)) (leaf (some ⟨1, 2⟩)))
          (leaf (some ⟨3, 1⟩)), [⟨2, 1⟩, ⟨1, 2⟩, ⟨3, 1⟩]) ∧
      (node 0 2 (node 1 1 (leaf (some ⟨2, 1⟩)) (leaf (some ⟨1, 2⟩)))
          (leaf (some ⟨3, 1⟩))).run [.insert ⟨1, 1⟩]
        = .ok (node 0 2 (node 1 1 (node 0 1 (leaf (some ⟨1, 1⟩)) (leaf (some ⟨2, 1⟩)))
          (leaf (some ⟨1, 2⟩))) (leaf (some ⟨3, 1⟩))) ∧
      Reachable (node 0 2 (node 1 1 (node 0 1 (leaf (some ⟨1, 1⟩)) (leaf (some ⟨2, 1⟩)))
        (leaf (some ⟨1, 2⟩))) (leaf (some ⟨3, 1⟩))) ∧
      (node 0 2 (node 1 1 (node 0 1 (leaf (some ⟨1, 1⟩)) (leaf (some ⟨2, 1⟩)))
        (leaf (some ⟨1, 2⟩))) (leaf (some ⟨3, 1⟩))).AxisAlternates none ∧
      (node 0 2 (node 1 1 (node 0 1 (leaf (some ⟨1, 1⟩)) (leaf (some ⟨2, 1⟩)))
        (leaf (some ⟨1, 2⟩))) (leaf (some ⟨3, 1⟩))).AxisAtDepth 0) := by
  have h1 : Int.tdiv 1 2 = 0 := by decide
  have h2 : Int.tdiv 2 2 = 1 := by decide
  have h3 : Int.toNat 2 = 2 := rfl
  have h4 : Int.toNat 3 = 3 := rfl
  have hr : Reachable (node 0 2 (leaf (some ⟨2, 2⟩)) (leaf (some ⟨9, 1⟩))) :=
    ⟨empty, [.insert ⟨2, 2⟩, .insert ⟨5, 5⟩, .insert ⟨9, 1⟩, .remove ⟨5, 5⟩], Or.inl rfl, by
      norm_num [KDTree.run, KDTree.execute, KDTree.insert, remove, isLeaf, KDTree.point,
        childDimension, Point2D.equals, Point2D.compareDimension, Point2D.get,
        compareDoubles, EPSILON]⟩
  have hbuild : build sortRange 3 [⟨3, 1⟩, ⟨1, 2⟩, ⟨2, 1⟩]
      = .ok (node 0 2 (node 1 1 (leaf (some ⟨2, 1⟩)) (leaf (some ⟨1, 2⟩)))
        (leaf (some ⟨3, 1⟩)), [⟨2, 1⟩, ⟨1, 2⟩, ⟨3, 1⟩]) := by
    norm_num [build, toInt, buildKDtree, vectorAt, childDimension, sortRange, INT_MIN, INT_MAX, h1,
      h2, h3, h4, List.insertionSort, List.orderedInsert, Point2D.get]
  have hrun : (node 0 2 (node 1 1 (leaf (some ⟨2, 1⟩)) (leaf (some ⟨1, 2⟩)))
        (leaf (some ⟨3, 1⟩))).run [.insert ⟨1, 1⟩]
      = .ok (node 0 2 (node 1 1 (node 0 1 (leaf (some ⟨1, 1⟩)) (leaf (some ⟨2, 1⟩)))
        (leaf (some ⟨1, 2⟩))) (leaf (some ⟨3, 1⟩))) := by
    norm_num [KDTree.run, KDTree.execute, KDTree.insert, childDimension,
      Point2D.compareDimension, Point2D.get, compareDoubles, EPSILON]
  have hr2 : Reachable (node 0 2 (node 1 1 (node 0 1 (leaf (some ⟨1, 1⟩))
      (leaf (some ⟨2, 1⟩))) (leaf (some ⟨1, 2⟩))) (leaf (some ⟨3, 1⟩))) :=
    ⟨_, _, Or.inr ⟨sortRange, 3, _, _, sortRange_perm, hbuild⟩, hrun⟩
  exact ⟨⟨hr, C19_axis_alternation _ hr⟩, hbuild, hrun, hr2, C19_axis_alternation _ hr2⟩

/-- C14 (fails on the code): the calls insert (2,2), insert (5,5), insert (9,1),
remove (2,2) on the Empty tree reach a tree whose root is a leaf with a null point;
`search` and the range query then read the null point, and `findMin` and `findMax`
return the null point. -/
theorem C14_reachable_leaf_without_point :
    empty.run [.insert ⟨2, 2⟩, .insert ⟨5, 5⟩, .insert ⟨9, 1⟩, .remove ⟨2, 2⟩]
      = .ok (leaf none) ∧
    Reachable (leaf none) ∧
    ¬ (leaf none).Proper ∧
    (leaf none).search ⟨9, 1⟩ = .error .nullPointer ∧
    (leaf none).printRange ⟨0, 0⟩ ⟨6, 6⟩ none none none none = .error .nullPointer ∧
    (leaf none).findMin 0 = .ok none ∧
    (leaf none).findMax 0 = .ok none := by
  have hrun : empty.run [.insert ⟨2, 2⟩, .insert ⟨5, 5⟩, .insert ⟨9, 1⟩, .remove ⟨2, 2⟩]
      = .ok (leaf none) := by
    norm_num [KDTree.run, KDTree.execute, KDTree.insert, remove, isLeaf, KDTree.point,
      childDimension, Point2D.equals, Point2D.compareDimension, Point2D.get,
      compareDoubles, EPSILON]
  refine ⟨hrun, ⟨empty, _, Or.inl rfl, hrun⟩, by simp [Proper], rfl, ?_, rfl, rfl⟩
  simp [printRange, subsumed]



